import Mathlib

/-!
Verification of the editor view rendering orchestrator (`View`), the marker
key normalization (`IMarkerData.makeKey`), and the language registry
(`LanguagesRegistry`) of this repository.

The `View` class owns an ordered collection of view parts, coalesces render
requests into a single pending animation frame, and executes a two-phase
(prepare, then commit) render pass over the parts that report themselves
dirty.  We embed one `View` instance as an explicit state record and model
a render pass as a pure function that also produces the observable trace of
calls made during the pass (snapshot construction, part callbacks, error
reports).  Exceptions thrown by part callbacks are modelled by per-part
flags (`prepareThrows`, `renderThrows`); a throwing call aborts the
remainder of the pass exactly as an exception propagating to the
top-level `safeInvokeNoArg` wrapper does.
-/

/-- Observable events of one `View` history.  `renderPass` marks an
invocation of the render callback (`_renderNow`'s safe invocation of
`_actualRender`); `snapshot v` marks construction of the `ViewportData`
value from viewport state `v`; `prepare`/`commit`/`didRender` mark the
part callbacks `prepareRender`, `render` and `onDidRender`; the viewport
argument carried by an event is the snapshot value the callback received.
`errorReported` marks a call to the unexpected-error sink
(`onUnexpectedError`). `heightChanged`/`zonesChanged` mark
`viewLayout.onHeightMaybeChanged` and the `ViewZonesChangedEvent`
emission inside `View.change`. -/
inductive REvent where
  | renderPass
  | snapshot (v : Nat)
  | onBeforeRender (v : Nat)
  | renderText (v : Nat)
  | prepare (pid : Nat) (v : Nat)
  | commit (pid : Nat) (v : Nat)
  | didRender (pid : Nat)
  | errorReported
  | heightChanged
  | zonesChanged
  deriving DecidableEq, Repr

/-- State of one registered view part: its dirty flag (the state behind
`shouldRender()`), and whether its `prepareRender` / `render` callback
throws when invoked. -/
structure PartState where
  dirty : Bool
  prepareThrows : Bool
  renderThrows : Bool
  deriving DecidableEq, Repr

/-- State of one `View` instance.  `pending` is `_renderAnimationFrame`
(the scheduling handle, `none` when no frame is pending); `nextHandle`
numbers the handles the host hands out; `viewportVersion` abstracts the
scroll/viewport state the `ViewportData` snapshot is computed from;
`viewLinesDirty` is `viewLines.shouldRender()`; `viewLinesScrollDirties`
lists the parts that scroll events triggered by `viewLines.renderText`
mark dirty mid-pass; `contentWidgetsIdx` is the index of the
content-widgets part (whose `onBeforeRender` runs before the phases);
`parts` is `viewParts` in registration order (a part's id is its index). -/
structure ViewState where
  inDOM : Bool
  pending : Option Nat
  nextHandle : Nat
  viewportVersion : Nat
  viewLinesDirty : Bool
  viewLinesScrollDirties : List Nat
  contentWidgetsIdx : Option Nat
  parts : List PartState
  deriving DecidableEq, Repr

/-- Dirty flag of the part at index `i` (`viewParts[i].shouldRender()`);
`false` out of range. -/
def shouldRenderAt (ps : List PartState) (i : Nat) : Bool :=
  match ps.get? i with
  | some p => p.dirty
  | none => false

/-- Whether `prepareRender` of the part at index `i` throws. -/
def prepThrowsAt (ps : List PartState) (i : Nat) : Bool :=
  match ps.get? i with
  | some p => p.prepareThrows
  | none => false

/-- Whether `render` of the part at index `i` throws. -/
def rendThrowsAt (ps : List PartState) (i : Nat) : Bool :=
  match ps.get? i with
  | some p => p.renderThrows
  | none => false

/-- Set the dirty flag of the part at index `i` to `b`; no-op out of
range.  `setDirty true` is `forceShouldRender()`, `setDirty false` is the
flag reset performed by `onDidRender()` (the `ViewPart` base class is not
among the given sources; per the specification, after a part's
prepare+commit completes its dirty flag is cleared by the part itself). -/
def setDirty (b : Bool) (ps : List PartState) (i : Nat) : List PartState :=
  match ps.get? i with
  | some p => ps.set i { p with dirty := b }
  | none => ps

/-- `View._getViewPartsToRender`: the indices of the parts whose
`shouldRender()` reports true, in registration order. -/
def getViewPartsToRender (ps : List PartState) : List Nat :=
  (List.range ps.length).filter (fun i => shouldRenderAt ps i)

/-- First phase of `View._actualRender`'s part loops: invoke
`prepareRender(renderingContext)` on each listed part in order; a throwing
part aborts the loop (the exception propagates).  Returns the emitted
events and whether the loop threw. -/
def prepareLoop (ps : List PartState) (v : Nat) : List Nat → List REvent × Bool
  | [] => ([], false)
  | i :: rest =>
    if prepThrowsAt ps i then ([REvent.prepare i v], true)
    else
      let r := prepareLoop ps v rest
      (REvent.prepare i v :: r.1, r.2)

/-- Second phase of `View._actualRender`'s part loops: invoke
`render(renderingContext)` then `onDidRender()` on each listed part in
order; a throwing `render` aborts the loop before `onDidRender` clears
that part's flag.  Returns the updated parts, the emitted events and
whether the loop threw. -/
def commitLoop (v : Nat) : List PartState → List Nat → List PartState × List REvent × Bool
  | ps, [] => (ps, [], false)
  | ps, i :: rest =>
    if rendThrowsAt ps i then (ps, [REvent.commit i v], true)
    else
      let r := commitLoop v (setDirty false ps i) rest
      (r.1, REvent.commit i v :: REvent.didRender i :: r.2.1, r.2.2)

/-- Events of `contentWidgets.onBeforeRender(viewportData)`, invoked when
the content-widgets part is dirty, before the render phases. -/
def beforeEvents (st : ViewState) : List REvent :=
  match st.contentWidgetsIdx with
  | some i => if shouldRenderAt st.parts i then [REvent.onBeforeRender st.viewportVersion] else []
  | none => []

/-- The two part loops of `View._actualRender`, run against the one
`RenderingContext` built from the snapshot `v`. -/
def renderPhases (st : ViewState) (v : Nat) (evPre : List REvent) (toRender : List Nat) :
    ViewState × List REvent × Bool :=
  let pr := prepareLoop st.parts v toRender
  if pr.2 then (st, evPre ++ pr.1, true)
  else
    let cm := commitLoop v st.parts toRender
    ({ st with parts := cm.1 }, evPre ++ pr.1 ++ cm.2.1, cm.2.2)

/-- Branch of `View._actualRender` taken when `viewLines.shouldRender()`:
`renderText(viewportData)` runs (its scroll side effects may bump the
viewport state and mark further parts dirty), `viewLines.onDidRender()`
clears the view-lines flag, and the parts to render are collected again;
the phases still use the `ViewportData` captured before. -/
def actualRenderLines (st : ViewState) : ViewState × List REvent × Bool :=
  let ps1 := st.viewLinesScrollDirties.foldl (setDirty true) st.parts
  let st1 : ViewState :=
    { st with parts := ps1, viewLinesDirty := false, viewportVersion := st.viewportVersion + 1 }
  renderPhases st1 st.viewportVersion
    (REvent.snapshot st.viewportVersion :: beforeEvents st ++ [REvent.renderText st.viewportVersion])
    (getViewPartsToRender ps1)

/-- `View._actualRender`: return early when detached from the DOM or when
neither the view lines nor any part is dirty; otherwise construct the
`ViewportData` snapshot once, run `onBeforeRender`, render the view lines
if dirty (re-collecting the dirty parts afterwards), and execute the
prepare phase followed by the commit phase over the collected parts. -/
def actualRender (st : ViewState) : ViewState × List REvent × Bool :=
  if st.inDOM = false then (st, [], false)
  else if st.viewLinesDirty = false ∧ getViewPartsToRender st.parts = [] then (st, [], false)
  else if st.viewLinesDirty = true then actualRenderLines st
  else
    renderPhases st st.viewportVersion
      (REvent.snapshot st.viewportVersion :: beforeEvents st)
      (getViewPartsToRender st.parts)

/-- `View._renderNow`: `safeInvokeNoArg(() => this._actualRender())` — the
render callback runs under the top-level safe-invoke wrapper, so an
exception escaping `_actualRender` is caught here and reported once to the
unexpected-error sink. -/
def renderNow (st : ViewState) : ViewState × List REvent :=
  let r := actualRender st
  (r.1, REvent.renderPass :: (r.2.1 ++ if r.2.2 then [REvent.errorReported] else []))

/-- `View._flushAccumulatedAndRenderNow`: delegates to `_renderNow`
(notably, it does not touch `_renderAnimationFrame`). -/
def flushAccumulatedAndRenderNow (st : ViewState) : ViewState × List REvent :=
  renderNow st

/-- `View._scheduleRender`: request a deferred render; when no frame is
pending, obtain a scheduling handle from the host, otherwise do nothing. -/
def scheduleRender (st : ViewState) : ViewState :=
  match st.pending with
  | some _ => st
  | none => { st with pending := some st.nextHandle, nextHandle := st.nextHandle + 1 }

/-- `View._onRenderScheduled`: the host fired the scheduled callback —
clear `_renderAnimationFrame`, then flush. -/
def onRenderScheduled (st : ViewState) : ViewState × List REvent :=
  flushAccumulatedAndRenderNow { st with pending := none }

/-- `View.render(now, everything)`: when `everything`, call
`forceShouldRender()` on the view lines and on every part; then either
flush synchronously (`now`) or schedule a frame. -/
def render (now everything : Bool) (st : ViewState) : ViewState × List REvent :=
  let st1 :=
    if everything then
      { st with viewLinesDirty := true, parts := st.parts.map (fun p => { p with dirty := true }) }
    else st
  if now then flushAccumulatedAndRenderNow st1 else (scheduleRender st1, [])

/-- The indices of the parts over which the two phases of one pass run:
empty on either early return, the re-collected dirty set when the view
lines rendered, the initially collected dirty set otherwise. -/
def finalRenderSet (st : ViewState) : List Nat :=
  if st.inDOM = false then []
  else if st.viewLinesDirty = false ∧ getViewPartsToRender st.parts = [] then []
  else if st.viewLinesDirty = true then
    getViewPartsToRender (st.viewLinesScrollDirties.foldl (setDirty true) st.parts)
  else getViewPartsToRender st.parts

/-- Part ids of the `commit` events of a trace, in order. -/
def commitPids (tr : List REvent) : List Nat :=
  tr.filterMap (fun e => match e with | REvent.commit p _ => some p | _ => none)

/-- Part ids of the `prepare` events of a trace, in order. -/
def preparePids (tr : List REvent) : List Nat :=
  tr.filterMap (fun e => match e with | REvent.prepare p _ => some p | _ => none)

/-- Whether an event is a `prepare` call. -/
def isPrepareEv : REvent → Bool
  | REvent.prepare _ _ => true
  | _ => false

/-- Whether an event is a `commit` (part `render`) call. -/
def isCommitEv : REvent → Bool
  | REvent.commit _ _ => true
  | _ => false

/-- Number of occurrences of an event in a trace. -/
def countEv (e : REvent) (tr : List REvent) : Nat :=
  tr.count e

/-- The snapshot value an event carries, if any. -/
def viewportOf : REvent → Option Nat
  | REvent.snapshot v => some v
  | REvent.onBeforeRender v => some v
  | REvent.renderText v => some v
  | REvent.prepare _ v => some v
  | REvent.commit _ v => some v
  | _ => none

/-- Number of `ViewportData` constructions in a trace. -/
def snapshotCount (tr : List REvent) : Nat :=
  tr.countP (fun e => match e with | REvent.snapshot _ => true | _ => false)

/-- In a trace, every `prepare` call happens strictly before every
`commit` call. -/
def phasePrecedes (tr : List REvent) : Prop :=
  ∀ i, (hi : i < tr.length) → ∀ j, (hj : j < tr.length) →
    isPrepareEv (tr.get ⟨i, hi⟩) = true → isCommitEv (tr.get ⟨j, hj⟩) = true → i < j

/-- One operation a `View.change` callback performs through the
`IViewZoneChangeAccessor`.  `removeZone`/`layoutZone` carry the boolean
the underlying `viewZones` operation reports (whether the zone change
took effect); the accessor ignores the call entirely when the id is
falsy (`0`). -/
inductive ZoneOp where
  | addZone
  | removeZone (id : Nat) (changed : Bool)
  | layoutZone (id : Nat) (changed : Bool)
  deriving DecidableEq, Repr

/-- One step of a `View.change` callback: an accessor operation, or the
point at which the callback throws (steps after it never run). -/
inductive CbStep where
  | op (o : ZoneOp)
  | throwErr
  deriving DecidableEq, Repr

/-- Effect of one accessor operation on the captured `zonesHaveChanged`
flag: `addZone` sets it unconditionally; `removeZone`/`layoutZone` return
early on a falsy id and otherwise or-in the reported boolean. -/
def applyZoneOp (flag : Bool) : ZoneOp → Bool
  | ZoneOp.addZone => true
  | ZoneOp.removeZone id changed => if id = 0 then flag else (changed || flag)
  | ZoneOp.layoutZone id changed => if id = 0 then flag else (changed || flag)

/-- Run the callback's steps over the flag; the first throw stops
execution.  Returns the final flag and whether the callback threw. -/
def runCallback (flag : Bool) : List CbStep → Bool × Bool
  | [] => (flag, false)
  | CbStep.throwErr :: _ => (flag, true)
  | CbStep.op o :: rest => runCallback (applyZoneOp flag o) rest

/-- `View.change(callback)`: inside `_renderOnce`, run the callback under
`safeInvoke1Arg` (an exception is caught there and reported once), then,
when `zonesHaveChanged`, notify the layout (`onHeightMaybeChanged`) and
emit one `ViewZonesChangedEvent`; `_renderOnce` finally schedules a
render.  Returns `zonesHaveChanged` together with the new state and the
emitted events. -/
def change (st : ViewState) (cb : List CbStep) : Bool × ViewState × List REvent :=
  let r := runCallback false cb
  let evCb := if r.2 then [REvent.errorReported] else []
  let evZones := if r.1 then [REvent.heightChanged, REvent.zonesChanged] else []
  (r.1, scheduleRender st, evCb ++ evZones)

/-- Whether a callback step is the throwing step. -/
def isThrowStep : CbStep → Bool
  | CbStep.throwErr => true
  | _ => false

/-- Whether an accessor operation makes `zonesHaveChanged` true: a zone
was added, or a zone with a non-falsy id was removed / laid out and the
operation reported a change. -/
def changingOp : ZoneOp → Bool
  | ZoneOp.addZone => true
  | ZoneOp.removeZone id changed => if id = 0 then false else changed
  | ZoneOp.layoutZone id changed => if id = 0 then false else changed

/-- The accessor operations the callback actually performs: those before
its first throw. -/
def executedOps (cb : List CbStep) : List ZoneOp :=
  (cb.takeWhile (fun s => !isThrowStep s)).filterMap
    (fun s => match s with | CbStep.op o => some o | _ => none)

/-! ### Marker data (`IMarkerData.makeKey`, `MarkerSeverity`) -/

/-- `MarkerSeverity` enum (numeric values 1, 2, 4, 8 in the source). -/
inductive MarkerSeverity where
  | Hint
  | Info
  | Warning
  | Error
  deriving DecidableEq, Repr

/-- `MarkerSeverity.toString`: display string looked up in
`_displayStrings` (populated for Error/Warning/Info via `localize`, which
we model as returning its default English string); `''` for a severity
with no entry. -/
def MarkerSeverity.toString : MarkerSeverity → String
  | MarkerSeverity.Error => "Error"
  | MarkerSeverity.Warning => "Warning"
  | MarkerSeverity.Info => "Info"
  | MarkerSeverity.Hint => ""

/-- JavaScript `String.prototype.replace` with a single-character string
pattern: replace the first occurrence only. -/
def replaceFirst (pat : Char) (rep : List Char) : List Char → List Char
  | [] => []
  | c :: rest => if c = pat then rep ++ rest else c :: replaceFirst pat rep rest

/-- The `'\¦'` replacement string of the source is the one-character
string `'¦'` (the backslash is not an escape), so the "escaping" replaces
the first `'¦'` with itself. -/
def escapeBar (s : String) : String :=
  ⟨replaceFirst '¦' ['¦'] s.data⟩

/-- `IMarkerData`: diagnostics record.  Optional fields are `Option`;
`severity` and the four position numbers are `Option` as well because
`makeKey` guards them with `!== undefined && !== null` checks at runtime.
Positions are modelled as naturals rendered in decimal by `toString`. -/
structure IMarkerData where
  code : Option String
  severity : Option MarkerSeverity
  message : String
  source : Option String
  startLineNumber : Option Nat
  startColumn : Option Nat
  endLineNumber : Option Nat
  endColumn : Option Nat
  deriving DecidableEq, Repr

/-- Decimal digits of a natural number, most significant first (empty for
zero). -/
def decimalDigits (n : Nat) : List Char :=
  if h : n = 0 then []
  else decimalDigits (n / 10) ++ [Nat.digitChar (n % 10)]
decreasing_by exact Nat.div_lt_self (Nat.pos_of_ne_zero h) (by decide)

/-- `Number.prototype.toString` for a natural number: its decimal
rendering. -/
def jsNatToString (n : Nat) : String :=
  if n = 0 then "0" else ⟨decimalDigits n⟩

/-- The string pushed for an optional string field: `''` for an absent or
falsy (empty) value, the escaped value otherwise. -/
def strOrEmpty (o : Option String) : String :=
  match o with
  | some s => if s = "" then "" else escapeBar s
  | none => ""

/-- The string pushed for a position field: `''` when undefined/null. -/
def numOrEmpty (o : Option Nat) : String :=
  match o with
  | some n => jsNatToString n
  | none => ""

/-- The string pushed for the severity field: `''` when undefined/null. -/
def sevOrEmpty (o : Option MarkerSeverity) : String :=
  match o with
  | some s => MarkerSeverity.toString s
  | none => ""

/-- JavaScript `Array.prototype.join` with a one-character separator. -/
def joinSep (c : Char) : List (List Char) → List Char
  | [] => []
  | [x] => x
  | x :: xs => x ++ c :: joinSep c xs

/-- `IMarkerData.makeKey`: join the empty string, source, code, severity
display string, message, the four positions and a trailing empty string
with `'¦'`. -/
def IMarkerData.makeKey (m : IMarkerData) : String :=
  ⟨joinSep '¦'
    ["".data,
     (strOrEmpty m.source).data,
     (strOrEmpty m.code).data,
     (sevOrEmpty m.severity).data,
     (if m.message = "" then "" else escapeBar m.message).data,
     (numOrEmpty m.startLineNumber).data,
     (numOrEmpty m.startColumn).data,
     (numOrEmpty m.endLineNumber).data,
     (numOrEmpty m.endColumn).data,
     "".data]⟩

/-- A present, non-empty string field containing no `'¦'`. -/
def safeFieldB (o : Option String) : Bool :=
  match o with
  | some s => !(s = "") && !(s.data.contains '¦')
  | none => false

/-- The safe inputs of claim C9: source, code and message present,
non-empty and `'¦'`-free; severity one of Error/Warning/Info; all four
positions defined. -/
def safeMarkerB (m : IMarkerData) : Bool :=
  safeFieldB m.source && safeFieldB m.code &&
  (!(m.message = "") && !(m.message.data.contains '¦')) &&
  (m.severity = some MarkerSeverity.Error || m.severity = some MarkerSeverity.Warning ||
    m.severity = some MarkerSeverity.Info) &&
  m.startLineNumber.isSome && m.startColumn.isSome &&
  m.endLineNumber.isSome && m.endColumn.isSome

/-! ### Language registry (`LanguagesRegistry`) -/

/-- A (string mode id, numeric language id) pair. -/
structure LanguageIdentifier where
  language : String
  id : Nat
  deriving DecidableEq, Repr

/-- `IResolvedLanguage`: the registry's record for one language. -/
structure IResolvedLanguage where
  identifier : LanguageIdentifier
  name : Option String
  mimetypes : List String
  aliases : List String
  extensions : List String
  filenames : List String
  configurationFiles : List String
  deriving DecidableEq, Repr

/-- `ILanguageExtensionPoint`: one language registration description. -/
structure ILanguageExtensionPoint where
  id : String
  extensions : Option (List String)
  filenames : Option (List String)
  filenamePatterns : Option (List String)
  firstLine : Option String
  aliases : Option (List String)
  mimetypes : Option (List String)
  configuration : Option String
  deriving DecidableEq, Repr

/-- `LanguagesRegistry` state: `_nextLanguageId`, the `_languages` map
(modelled as an insertion-ordered association list) and the sparse
`_languageIds` array (numeric id to string id).  The `_mimeTypesMap`,
`_nameMap` and `_lowercaseNameMap` fast-path caches are rebuilt from
`_languages` after every registration batch and are not independent
state, so they are not modelled as fields. -/
structure LanguagesRegistry where
  nextLanguageId : Nat
  languages : List (String × IResolvedLanguage)
  languageIds : List (Nat × String)
  deriving DecidableEq, Repr

/-- The registry as built by the constructor before any registration:
`_nextLanguageId = 1`, empty maps (registrations seeded from the global
`ModesRegistry` go through the same `_registerLanguages` path and are
covered by quantifying over registration sequences). -/
def initialLanguagesRegistry : LanguagesRegistry :=
  { nextLanguageId := 1, languages := [], languageIds := [] }

/-- `LanguagesRegistry._mergeLanguage`: merge a registration description
into an existing resolved language.  The `mime.registerTextMime` calls
(extensions, filenames, filename patterns, first line) and the first-line
regex construction only affect the external mime registry and are not
part of the `IResolvedLanguage` record; everything that mutates the
record is modelled. -/
def mergeLanguage (rl : IResolvedLanguage) (lang : ILanguageExtensionPoint) : IResolvedLanguage :=
  let withMimes :=
    match lang.mimetypes with
    | some (m :: ms) => { rl with mimetypes := rl.mimetypes ++ (m :: ms) }
    | _ => { rl with mimetypes := rl.mimetypes ++ ["text/x-" ++ lang.id] }
  let withExts :=
    match lang.extensions with
    | some exts => { withMimes with extensions := withMimes.extensions ++ exts }
    | none => withMimes
  let withFiles :=
    match lang.filenames with
    | some fns => { withExts with filenames := withExts.filenames ++ fns }
    | none => withExts
  let withOwnAlias := { withFiles with aliases := withFiles.aliases ++ [lang.id] }
  -- `langAliases` is `[null]` when `lang.aliases = []` (the no-name
  -- signal) and `lang.aliases` itself otherwise; the alias loop skips
  -- null/empty entries, so it appends exactly the non-empty aliases.
  let withAliases :=
    match lang.aliases with
    | some as => { withOwnAlias with
        aliases := withOwnAlias.aliases ++ as.filter (fun s => !(s = "")) }
    | none => withOwnAlias
  -- name: with an empty alias array (`[null]` signal) the name is left
  -- alone; with a non-empty alias array the first alias (or the language
  -- id if it is empty) always becomes the name; with no alias array the
  -- language id becomes the name only when none is set yet.
  let withName :=
    match lang.aliases with
    | some [] => withAliases
    | some (best :: _) =>
      { withAliases with name := some (if best = "" then lang.id else best) }
    | none =>
      match withAliases.name with
      | some _ => withAliases
      | none => { withAliases with name := some lang.id }
  match lang.configuration with
  | some cfg => { withName with configurationFiles := withName.configurationFiles ++ [cfg] }
  | none => withName

/-- `LanguagesRegistry._registerLanguage`: merge into the existing entry
when the string id is already known; otherwise allocate the next numeric
id, record it in `_languageIds`, and store the new resolved language. -/
def registerLanguage (r : LanguagesRegistry) (lang : ILanguageExtensionPoint) :
    LanguagesRegistry :=
  match r.languages.find? (fun kv => kv.1 = lang.id) with
  | some _ =>
    { r with languages :=
        r.languages.map (fun kv => if kv.1 = lang.id then (kv.1, mergeLanguage kv.2 lang) else kv) }
  | none =>
    let languageId := r.nextLanguageId
    let rl : IResolvedLanguage :=
      { identifier := { language := lang.id, id := languageId },
        name := none, mimetypes := [], aliases := [], extensions := [],
        filenames := [], configurationFiles := [] }
    { r with
      nextLanguageId := r.nextLanguageId + 1,
      languageIds := r.languageIds ++ [(languageId, lang.id)],
      languages := r.languages ++ [(lang.id, mergeLanguage rl lang)] }

/-- `LanguagesRegistry._registerLanguages`: register each description in
order (the early return on an empty batch leaves the registry
unchanged, as does the fold). -/
def registerLanguages (r : LanguagesRegistry) (descs : List ILanguageExtensionPoint) :
    LanguagesRegistry :=
  descs.foldl registerLanguage r

/-- The resolved language stored under a string id. -/
def findLanguage (r : LanguagesRegistry) (s : String) : Option IResolvedLanguage :=
  (r.languages.find? (fun kv => kv.1 = s)).map (fun kv => kv.2)

/-- `NULL_MODE_ID` / `NULL_LANGUAGE_IDENTIFIER` from the imported
`nullMode` module (not among the given sources): the null language has
numeric id `0` (`LanguageId.Null`). -/
def NULL_LANGUAGE_IDENTIFIER : LanguageIdentifier :=
  { language := "vs.editor.nullMode", id := 0 }

/-- `LanguagesRegistry.getLanguageIdentifier` restricted to a numeric
argument: the null id maps to the null identifier; otherwise the string
id is looked up in `_languageIds`, and — because of the source's falsy
`if (!modeId) return null` guard — an empty string id read from the
table also yields `null`; finally the resolved language's identifier is
returned. -/
def getLanguageIdentifierOfId (r : LanguagesRegistry) (languageId : Nat) :
    Option LanguageIdentifier :=
  if languageId = 0 then some NULL_LANGUAGE_IDENTIFIER
  else
    match (r.languageIds.find? (fun kv => kv.1 = languageId)).map (fun kv => kv.2) with
    | none => none
    | some modeId =>
      if modeId = "" then none
      else
        match findLanguage r modeId with
        | none => none
        | some rl => some rl.identifier

/-- Structural invariant of the registry: numeric ids are exactly
`1, 2, …` in registration order, `_nextLanguageId` is one past the last,
`_languageIds` is the inverse table of `_languages`, every stored
identifier carries its own key as language string, and keys are unique. -/
def RegInv (r : LanguagesRegistry) : Prop :=
  r.nextLanguageId = r.languages.length + 1 ∧
  (r.languages.map (fun kv => kv.2.identifier.id)) = List.range' 1 r.languages.length ∧
  r.languageIds = r.languages.map (fun kv => (kv.2.identifier.id, kv.1)) ∧
  (∀ kv ∈ r.languages, kv.2.identifier.language = kv.1) ∧
  (r.languages.map (fun kv => kv.1)).Nodup

/-- Events a single render pass can emit, all tied to the one snapshot
value `v` captured at the start of the pass. -/
def passEvent (v : Nat) : REvent → Prop := fun e =>
  match e with
  | REvent.snapshot w => w = v
  | REvent.onBeforeRender w => w = v
  | REvent.renderText w => w = v
  | REvent.prepare _ w => w = v
  | REvent.commit _ w => w = v
  | REvent.didRender _ => True
  | _ => False

lemma mem_prepareLoop {ps : List PartState} {v : Nat} {l : List Nat} {e : REvent}
    (h : e ∈ (prepareLoop ps v l).1) : ∃ i, e = REvent.prepare i v := by
  induction l with
  | nil => simp [prepareLoop] at h
  | cons i rest ih =>
    by_cases hp : prepThrowsAt ps i
    · simp [prepareLoop, hp] at h
      exact ⟨i, h⟩
    · simp [prepareLoop, hp] at h
      rcases h with h | h
      · exact ⟨i, h⟩
      · exact ih h

lemma mem_commitLoop {v : Nat} {ps : List PartState} {l : List Nat} {e : REvent}
    (h : e ∈ (commitLoop v ps l).2.1) :
    (∃ i, e = REvent.commit i v) ∨ (∃ i, e = REvent.didRender i) := by
  induction l generalizing ps with
  | nil => simp [commitLoop] at h
  | cons i rest ih =>
    by_cases hr : rendThrowsAt ps i
    · simp [commitLoop, hr] at h
      exact Or.inl ⟨i, h⟩
    · simp [commitLoop, hr] at h
      rcases h with h | h | h
      · exact Or.inl ⟨i, h⟩
      · exact Or.inr ⟨i, h⟩
      · exact ih h

lemma mem_beforeEvents {st : ViewState} {e : REvent} (h : e ∈ beforeEvents st) :
    e = REvent.onBeforeRender st.viewportVersion := by
  unfold beforeEvents at h
  rcases hc : st.contentWidgetsIdx with _ | i <;> rw [hc] at h
  · simp at h
  · by_cases hd : shouldRenderAt st.parts i <;> simp [hd] at h
    exact h

lemma renderPhases_threw {st : ViewState} {v : Nat} {evPre : List REvent} {l : List Nat}
    (hp : (prepareLoop st.parts v l).2 = true) :
    renderPhases st v evPre l = (st, evPre ++ (prepareLoop st.parts v l).1, true) := by
  simp [renderPhases, hp]

lemma renderPhases_ok {st : ViewState} {v : Nat} {evPre : List REvent} {l : List Nat}
    (hp : (prepareLoop st.parts v l).2 = false) :
    renderPhases st v evPre l =
      ({ st with parts := (commitLoop v st.parts l).1 },
       evPre ++ (prepareLoop st.parts v l).1 ++ (commitLoop v st.parts l).2.1,
       (commitLoop v st.parts l).2.2) := by
  simp [renderPhases, hp]

lemma actualRender_notInDOM {st : ViewState} (h1 : st.inDOM = false) :
    actualRender st = (st, [], false) := by
  simp [actualRender, h1]

lemma actualRender_nothing {st : ViewState} (h1 : st.viewLinesDirty = false)
    (h2 : getViewPartsToRender st.parts = []) :
    actualRender st = (st, [], false) := by
  by_cases hd : st.inDOM = false <;> simp [actualRender, hd, h1, h2]

lemma actualRender_lines {st : ViewState} (h1 : st.inDOM = true)
    (h2 : st.viewLinesDirty = true) :
    actualRender st = actualRenderLines st := by
  simp [actualRender, h1, h2]

lemma actualRender_plain {st : ViewState} (h1 : st.inDOM = true)
    (h2 : st.viewLinesDirty = false) (h3 : getViewPartsToRender st.parts ≠ []) :
    actualRender st =
      renderPhases st st.viewportVersion
        (REvent.snapshot st.viewportVersion :: beforeEvents st)
        (getViewPartsToRender st.parts) := by
  simp [actualRender, h1, h2, h3]

lemma renderPhases_events {st : ViewState} {v : Nat} {evPre : List REvent} {l : List Nat}
    {e : REvent} (h : e ∈ (renderPhases st v evPre l).2.1) :
    e ∈ evPre ∨ passEvent v e := by
  by_cases hp : (prepareLoop st.parts v l).2 = true
  · rw [renderPhases_threw hp] at h
    rcases List.mem_append.mp h with h | h
    · exact Or.inl h
    · rcases mem_prepareLoop h with ⟨i, rfl⟩
      exact Or.inr rfl
  · rw [renderPhases_ok (Bool.not_eq_true _ ▸ hp)] at h
    rcases List.mem_append.mp h with h | h
    · rcases List.mem_append.mp h with h | h
      · exact Or.inl h
      · rcases mem_prepareLoop h with ⟨i, rfl⟩
        exact Or.inr rfl
    · rcases mem_commitLoop h with ⟨i, rfl⟩ | ⟨i, rfl⟩
      · exact Or.inr rfl
      · exact Or.inr trivial

/-- Every event emitted by `_actualRender` belongs to the pass and carries
the snapshot value captured at the start of the pass. -/
lemma actualRender_events {st : ViewState} {e : REvent}
    (h : e ∈ (actualRender st).2.1) : passEvent st.viewportVersion e := by
  by_cases h1 : st.inDOM = true
  case neg =>
    rw [actualRender_notInDOM (Bool.not_eq_true _ ▸ h1)] at h
    simp at h
  by_cases h2 : st.viewLinesDirty = true
  · rw [actualRender_lines h1 h2] at h
    unfold actualRenderLines at h
    rcases renderPhases_events h with h | h
    · rcases List.mem_cons.mp h with h | h
      · rw [h]; simp [passEvent]
      · rcases List.mem_append.mp h with h | h
        · rw [mem_beforeEvents h]; simp [passEvent]
        · rcases List.mem_singleton.mp h with rfl
          simp [passEvent]
    · exact h
  · have h2f : st.viewLinesDirty = false := Bool.not_eq_true _ ▸ h2
    by_cases h3 : getViewPartsToRender st.parts = []
    · rw [actualRender_nothing h2f h3] at h
      simp at h
    · rw [actualRender_plain h1 h2f h3] at h
      rcases renderPhases_events h with h | h
      · rcases List.mem_cons.mp h with h | h
        · rw [h]; simp [passEvent]
        · rw [mem_beforeEvents h]; simp [passEvent]
      · exact h

lemma countEv_renderPass_actualRender (st : ViewState) :
    countEv REvent.renderPass (actualRender st).2.1 = 0 := by
  unfold countEv
  rw [List.count_eq_zero]
  intro h
  have := actualRender_events h
  simp [passEvent] at this

/-- Each invocation of the scheduled/flushed render callback is exactly
one render pass. -/
lemma countEv_renderPass_renderNow (st : ViewState) :
    countEv REvent.renderPass (renderNow st).2 = 1 := by
  have h0 := countEv_renderPass_actualRender st
  unfold countEv at h0 ⊢
  unfold renderNow
  by_cases ht : (actualRender st).2.2 <;>
    simp [ht, List.count_cons, List.count_append, h0]

lemma scheduleRender_idem (st : ViewState) :
    scheduleRender (scheduleRender st) = scheduleRender st := by
  rcases hp : st.pending with _ | h <;> simp [scheduleRender, hp]

lemma iterate_scheduleRender (st : ViewState) {n : Nat} (hn : 1 ≤ n) :
    scheduleRender^[n] st = scheduleRender st := by
  rcases Nat.exists_eq_add_of_le hn with ⟨m, rfl⟩
  rw [Nat.add_comm, Function.iterate_add_apply]
  exact Function.iterate_fixed (scheduleRender_idem st) m

/-- C1 (render-request coalescing): starting from a state with no pending
frame, any sequence of `N ≥ 1` calls to `_scheduleRender` with no
intervening flush leaves the view in exactly the state of a single call —
so a request made while a frame is pending changes nothing — with exactly
one pending handle allocated (`nextHandle` advanced once, `pending`
holding that handle), and when the host fires the callback
(`_onRenderScheduled`) exactly one render pass executes. -/
theorem View_scheduleRender_coalesces (st : ViewState) (n : Nat) (hn : 1 ≤ n)
    (hp : st.pending = none) :
    scheduleRender^[n] st = scheduleRender st ∧
    (scheduleRender^[n] st).pending = some st.nextHandle ∧
    (scheduleRender^[n] st).nextHandle = st.nextHandle + 1 ∧
    countEv REvent.renderPass (onRenderScheduled (scheduleRender^[n] st)).2 = 1 := by
  have h1 := iterate_scheduleRender st hn
  refine ⟨h1, ?_, ?_, ?_⟩
  · rw [h1]; simp [scheduleRender, hp]
  · rw [h1]; simp [scheduleRender, hp]
  · rw [h1]
    unfold onRenderScheduled flushAccumulatedAndRenderNow
    exact countEv_renderPass_renderNow _

/-- Witness for C1 at a concrete view with one dirty part and three
back-to-back render requests. -/
theorem View_scheduleRender_coalesces_witness :
    scheduleRender^[3] ⟨true, none, 0, 0, false, [], none, [⟨true, false, false⟩]⟩ =
      scheduleRender ⟨true, none, 0, 0, false, [], none, [⟨true, false, false⟩]⟩ ∧
    (scheduleRender^[3] ⟨true, none, 0, 0, false, [], none, [⟨true, false, false⟩]⟩).pending = some 0 ∧
    (scheduleRender^[3] ⟨true, none, 0, 0, false, [], none, [⟨true, false, false⟩]⟩).nextHandle = 0 + 1 ∧
    countEv REvent.renderPass
      (onRenderScheduled (scheduleRender^[3] ⟨true, none, 0, 0, false, [], none, [⟨true, false, false⟩]⟩)).2 = 1 :=
  View_scheduleRender_coalesces ⟨true, none, 0, 0, false, [], none, [⟨true, false, false⟩]⟩ 3
    (by decide) (by decide)

lemma shouldRenderAt_eq_true_iff (ps : List PartState) (i : Nat) :
    shouldRenderAt ps i = true ↔ ∃ p, ps.get? i = some p ∧ p.dirty = true := by
  unfold shouldRenderAt
  cases h : ps.get? i <;> simp [h]

lemma shouldRenderAt_lt {ps : List PartState} {i : Nat} (h : shouldRenderAt ps i = true) :
    i < ps.length := by
  by_contra hlt
  have hn : ps.get? i = none := List.get?_eq_none.mpr (Nat.le_of_not_lt hlt)
  rw [shouldRenderAt_eq_true_iff] at h
  rcases h with ⟨p, hp, _⟩
  rw [hn] at hp
  exact Option.noConfusion hp

lemma shouldRenderAt_of_le {ps : List PartState} {i : Nat} (h : ps.length ≤ i) :
    shouldRenderAt ps i = false := by
  unfold shouldRenderAt
  rw [List.get?_eq_none.mpr h]

lemma length_setDirty (b : Bool) (ps : List PartState) (i : Nat) :
    (setDirty b ps i).length = ps.length := by
  unfold setDirty
  cases h : ps.get? i
  · rfl
  · simp

lemma prepThrowsAt_setDirty (b : Bool) (ps : List PartState) (i k : Nat) :
    prepThrowsAt (setDirty b ps i) k = prepThrowsAt ps k := by
  unfold setDirty
  cases h : ps.get? i
  · rfl
  · rename_i p
    unfold prepThrowsAt
    by_cases hk : i = k
    · subst hk
      rw [List.get?_set_eq_of_lt _ (List.get?_eq_some.mp h).1, h]
    · rw [List.get?_set_ne _ _ hk]

lemma rendThrowsAt_setDirty (b : Bool) (ps : List PartState) (i k : Nat) :
    rendThrowsAt (setDirty b ps i) k = rendThrowsAt ps k := by
  unfold setDirty
  cases h : ps.get? i
  · rfl
  · rename_i p
    unfold rendThrowsAt
    by_cases hk : i = k
    · subst hk
      rw [List.get?_set_eq_of_lt _ (List.get?_eq_some.mp h).1, h]
    · rw [List.get?_set_ne _ _ hk]

lemma shouldRenderAt_setDirty_self (b : Bool) (ps : List PartState) (i : Nat) :
    shouldRenderAt (setDirty b ps i) i = if i < ps.length then b else false := by
  unfold setDirty
  cases h : ps.get? i
  · have hle : ps.length ≤ i := List.get?_eq_none.mp h
    rw [if_neg (Nat.not_lt_of_le hle)]
    exact shouldRenderAt_of_le hle
  · rename_i p
    have hlt := (List.get?_eq_some.mp h).1
    unfold shouldRenderAt
    rw [List.get?_set_eq_of_lt _ hlt, if_pos hlt]

lemma shouldRenderAt_setDirty_ne (b : Bool) (ps : List PartState) {i k : Nat} (hk : k ≠ i) :
    shouldRenderAt (setDirty b ps i) k = shouldRenderAt ps k := by
  unfold setDirty
  cases h : ps.get? i
  · rfl
  · unfold shouldRenderAt
    rw [List.get?_set_ne _ _ (fun he => hk he.symm)]

lemma length_foldlSet (b : Bool) (l : List Nat) (ps : List PartState) :
    (l.foldl (setDirty b) ps).length = ps.length := by
  induction l generalizing ps with
  | nil => rfl
  | cons i rest ih => rw [List.foldl_cons, ih, length_setDirty]

lemma prepThrowsAt_foldlSet (b : Bool) (l : List Nat) (ps : List PartState) (k : Nat) :
    prepThrowsAt (l.foldl (setDirty b) ps) k = prepThrowsAt ps k := by
  induction l generalizing ps with
  | nil => rfl
  | cons i rest ih => rw [List.foldl_cons, ih, prepThrowsAt_setDirty]

lemma rendThrowsAt_foldlSet (b : Bool) (l : List Nat) (ps : List PartState) (k : Nat) :
    rendThrowsAt (l.foldl (setDirty b) ps) k = rendThrowsAt ps k := by
  induction l generalizing ps with
  | nil => rfl
  | cons i rest ih => rw [List.foldl_cons, ih, rendThrowsAt_setDirty]

lemma shouldRenderAt_foldlSet_false (l : List Nat) (ps : List PartState) (k : Nat) :
    shouldRenderAt (l.foldl (setDirty false) ps) k =
      if k ∈ l then false else shouldRenderAt ps k := by
  induction l generalizing ps with
  | nil => simp
  | cons i rest ih =>
    rw [List.foldl_cons, ih]
    by_cases hk : k ∈ rest
    · simp [hk]
    · by_cases hki : k = i
      · subst hki
        simp [hk, shouldRenderAt_setDirty_self]
      · simp [hk, hki, shouldRenderAt_setDirty_ne false ps hki]

lemma shouldRenderAt_foldlSet_true (l : List Nat) (ps : List PartState) (k : Nat) :
    shouldRenderAt (l.foldl (setDirty true) ps) k =
      if k ∈ l ∧ k < ps.length then true else shouldRenderAt ps k := by
  induction l generalizing ps with
  | nil => simp
  | cons i rest ih =>
    rw [List.foldl_cons, ih, length_setDirty]
    by_cases hk : k ∈ rest ∧ k < ps.length
    · simp [hk.1, hk.2]
    · rw [if_neg hk]
      by_cases hki : k = i
      · subst hki
        rw [shouldRenderAt_setDirty_self]
        by_cases hlt : k < ps.length
        · simp [hlt]
        · have := shouldRenderAt_of_le (Nat.le_of_not_lt hlt)
          simp [hlt, this]
      · rw [shouldRenderAt_setDirty_ne true ps hki]
        have : ¬(k ∈ i :: rest ∧ k < ps.length) := by
          intro ⟨hm, hl⟩
          rcases List.mem_cons.mp hm with h | h
          · exact hki h
          · exact hk ⟨h, hl⟩
        rw [if_neg this]

lemma mem_getViewPartsToRender {ps : List PartState} {i : Nat} :
    i ∈ getViewPartsToRender ps ↔ shouldRenderAt ps i = true := by
  unfold getViewPartsToRender
  rw [List.mem_filter, List.mem_range]
  constructor
  · exact fun h => h.2
  · exact fun h => ⟨shouldRenderAt_lt h, h⟩

lemma pairwise_getViewPartsToRender (ps : List PartState) :
    (getViewPartsToRender ps).Pairwise (· < ·) :=
  (List.pairwise_lt_range ps.length).sublist (List.filter_sublist _)

lemma getViewPartsToRender_clear (ps : List PartState) :
    getViewPartsToRender ((getViewPartsToRender ps).foldl (setDirty false) ps) = [] := by
  rw [List.eq_nil_iff_forall_not_mem]
  intro i hi
  rw [mem_getViewPartsToRender, shouldRenderAt_foldlSet_false] at hi
  by_cases hm : i ∈ getViewPartsToRender ps
  · rw [if_pos hm] at hi
    exact Bool.noConfusion hi
  · rw [if_neg hm] at hi
    exact hm (mem_getViewPartsToRender.mpr hi)

lemma prepareLoop_ok {ps : List PartState} {v : Nat} {l : List Nat}
    (h : ∀ i ∈ l, prepThrowsAt ps i = false) :
    prepareLoop ps v l = (l.map (fun i => REvent.prepare i v), false) := by
  induction l with
  | nil => rfl
  | cons i rest ih =>
    have hi := h i (List.mem_cons_self i rest)
    simp only [prepareLoop, hi, if_false, Bool.false_eq_true]
    rw [ih (fun j hj => h j (List.mem_cons_of_mem i hj))]
    simp

lemma prepareLoop_append {ps : List PartState} {v : Nat} {l1 l2 : List Nat}
    (h : ∀ i ∈ l1, prepThrowsAt ps i = false) :
    prepareLoop ps v (l1 ++ l2) =
      (l1.map (fun i => REvent.prepare i v) ++ (prepareLoop ps v l2).1,
       (prepareLoop ps v l2).2) := by
  induction l1 with
  | nil => simp
  | cons i rest ih =>
    have hi := h i (List.mem_cons_self i rest)
    simp only [List.cons_append, prepareLoop, hi, if_false, Bool.false_eq_true, List.append_eq]
    rw [ih (fun j hj => h j (List.mem_cons_of_mem i hj))]
    simp

lemma prepareLoop_throwsHead {ps : List PartState} {v : Nat} {j : Nat} (l2 : List Nat)
    (h : prepThrowsAt ps j = true) :
    prepareLoop ps v (j :: l2) = ([REvent.prepare j v], true) := by
  simp [prepareLoop, h]

lemma prepareLoop_false_no_throwers {ps : List PartState} {v : Nat} {l : List Nat}
    (h : (prepareLoop ps v l).2 = false) : ∀ i ∈ l, prepThrowsAt ps i = false := by
  induction l with
  | nil => intro i hi; exact absurd hi (List.not_mem_nil i)
  | cons i rest ih =>
    by_cases hp : prepThrowsAt ps i = true
    · rw [prepareLoop_throwsHead rest hp] at h
      exact Bool.noConfusion h
    · have hp' : prepThrowsAt ps i = false := Bool.not_eq_true _ ▸ hp
      simp only [prepareLoop, hp', if_false, Bool.false_eq_true] at h
      intro k hk
      rcases List.mem_cons.mp hk with rfl | hk
      · exact hp'
      · exact ih h k hk

lemma commitLoop_ok {v : Nat} {ps : List PartState} {l : List Nat}
    (h : ∀ i ∈ l, rendThrowsAt ps i = false) :
    commitLoop v ps l =
      (l.foldl (setDirty false) ps,
       l.bind (fun i => [REvent.commit i v, REvent.didRender i]), false) := by
  induction l generalizing ps with
  | nil => rfl
  | cons i rest ih =>
    have hi := h i (List.mem_cons_self i rest)
    simp only [commitLoop, hi, if_false, Bool.false_eq_true]
    rw [ih (fun j hj => by
      rw [rendThrowsAt_setDirty]
      exact h j (List.mem_cons_of_mem i hj))]
    simp

lemma commitLoop_append {v : Nat} {ps : List PartState} {l1 l2 : List Nat}
    (h : ∀ i ∈ l1, rendThrowsAt ps i = false) :
    commitLoop v ps (l1 ++ l2) =
      ((commitLoop v (l1.foldl (setDirty false) ps) l2).1,
       l1.bind (fun i => [REvent.commit i v, REvent.didRender i]) ++
         (commitLoop v (l1.foldl (setDirty false) ps) l2).2.1,
       (commitLoop v (l1.foldl (setDirty false) ps) l2).2.2) := by
  induction l1 generalizing ps with
  | nil => simp
  | cons i rest ih =>
    have hi := h i (List.mem_cons_self i rest)
    simp only [List.cons_append, commitLoop, hi, if_false, Bool.false_eq_true, List.append_eq]
    rw [ih (fun j hj => by
      rw [rendThrowsAt_setDirty]
      exact h j (List.mem_cons_of_mem i hj))]
    simp

lemma commitLoop_throwsHead {v : Nat} {ps : List PartState} {j : Nat} (l2 : List Nat)
    (h : rendThrowsAt ps j = true) :
    commitLoop v ps (j :: l2) = (ps, [REvent.commit j v], true) := by
  simp [commitLoop, h]

lemma commitPids_append (t1 t2 : List REvent) :
    commitPids (t1 ++ t2) = commitPids t1 ++ commitPids t2 := by
  unfold commitPids
  rw [List.filterMap_append]

lemma preparePids_append (t1 t2 : List REvent) :
    preparePids (t1 ++ t2) = preparePids t1 ++ preparePids t2 := by
  unfold preparePids
  rw [List.filterMap_append]

lemma commitPids_eq_nil {tr : List REvent} (h : ∀ e ∈ tr, isCommitEv e = false) :
    commitPids tr = [] := by
  induction tr with
  | nil => rfl
  | cons e rest ih =>
    have he := h e (List.mem_cons_self e rest)
    have hrest := ih (fun x hx => h x (List.mem_cons_of_mem e hx))
    cases e <;> simp [commitPids] at hrest ⊢ <;> first
      | exact hrest
      | exact absurd he (by simp [isCommitEv])

lemma preparePids_eq_nil {tr : List REvent} (h : ∀ e ∈ tr, isPrepareEv e = false) :
    preparePids tr = [] := by
  induction tr with
  | nil => rfl
  | cons e rest ih =>
    have he := h e (List.mem_cons_self e rest)
    have hrest := ih (fun x hx => h x (List.mem_cons_of_mem e hx))
    cases e <;> simp [preparePids] at hrest ⊢ <;> first
      | exact hrest
      | exact absurd he (by simp [isPrepareEv])

lemma commitPids_map_prepare (l : List Nat) (v : Nat) :
    commitPids (l.map (fun i => REvent.prepare i v)) = [] := by
  apply commitPids_eq_nil
  intro e he
  rcases List.mem_map.mp he with ⟨i, _, rfl⟩
  rfl

lemma preparePids_map_prepare (l : List Nat) (v : Nat) :
    preparePids (l.map (fun i => REvent.prepare i v)) = l := by
  induction l with
  | nil => rfl
  | cons i rest ih => simp [preparePids] at ih ⊢; exact ih

lemma commitPids_bind_commit (l : List Nat) (v : Nat) :
    commitPids (l.bind (fun i => [REvent.commit i v, REvent.didRender i])) = l := by
  induction l with
  | nil => rfl
  | cons i rest ih => simp [commitPids] at ih ⊢; exact ih

lemma preparePids_bind_commit (l : List Nat) (v : Nat) :
    preparePids (l.bind (fun i => [REvent.commit i v, REvent.didRender i])) = [] := by
  apply preparePids_eq_nil
  intro e he
  simp only [List.mem_bind] at he
  rcases he with ⟨i, _, hi⟩
  rcases List.mem_cons.mp hi with rfl | hi
  · rfl
  · rcases List.mem_singleton.mp hi with rfl
    rfl

lemma finalRenderSet_notInDOM {st : ViewState} (h1 : st.inDOM = false) :
    finalRenderSet st = [] := by
  simp [finalRenderSet, h1]

lemma finalRenderSet_nothing {st : ViewState} (h1 : st.viewLinesDirty = false)
    (h2 : getViewPartsToRender st.parts = []) : finalRenderSet st = [] := by
  by_cases hd : st.inDOM = false <;> simp [finalRenderSet, hd, h1, h2]

lemma finalRenderSet_lines {st : ViewState} (h1 : st.inDOM = true)
    (h2 : st.viewLinesDirty = true) :
    finalRenderSet st =
      getViewPartsToRender (st.viewLinesScrollDirties.foldl (setDirty true) st.parts) := by
  simp [finalRenderSet, h1, h2]

lemma finalRenderSet_plain {st : ViewState} (h1 : st.inDOM = true)
    (h2 : st.viewLinesDirty = false) (h3 : getViewPartsToRender st.parts ≠ []) :
    finalRenderSet st = getViewPartsToRender st.parts := by
  simp [finalRenderSet, h1, h2, h3]

lemma noThrowIdx {ps : List PartState}
    (hno : ∀ p ∈ ps, p.prepareThrows = false ∧ p.renderThrows = false) (i : Nat) :
    prepThrowsAt ps i = false ∧ rendThrowsAt ps i = false := by
  unfold prepThrowsAt rendThrowsAt
  cases h : ps.get? i with
  | none => exact ⟨rfl, rfl⟩
  | some p => exact hno p (List.get?_mem h)

/-- Under a no-throw hypothesis, one flush produces the trace: a phase-free
preamble, then the prepare events of the final dirty set, then its commit
and did-render events, all with the captured snapshot. -/
lemma renderNow_noThrow_decomp (st : ViewState)
    (hno : ∀ p ∈ st.parts, p.prepareThrows = false ∧ p.renderThrows = false) :
    ∃ pre, (renderNow st).2 =
      pre ++ (finalRenderSet st).map (fun i => REvent.prepare i st.viewportVersion)
          ++ (finalRenderSet st).bind
              (fun i => [REvent.commit i st.viewportVersion, REvent.didRender i]) ∧
      (∀ e ∈ pre, isPrepareEv e = false ∧ isCommitEv e = false) := by
  have hidx := noThrowIdx hno
  by_cases h1 : st.inDOM = true
  case neg =>
    have h1f : st.inDOM = false := Bool.not_eq_true _ ▸ h1
    refine ⟨[REvent.renderPass], ?_, ?_⟩
    · rw [finalRenderSet_notInDOM h1f]
      unfold renderNow
      rw [actualRender_notInDOM h1f]
      simp
    · intro e he
      rcases List.mem_singleton.mp he with rfl
      exact ⟨rfl, rfl⟩
  by_cases h2 : st.viewLinesDirty = true
  · -- view lines render first; the dirty set is re-collected
    have hps1 : ∀ i, prepThrowsAt (st.viewLinesScrollDirties.foldl (setDirty true) st.parts) i = false ∧
        rendThrowsAt (st.viewLinesScrollDirties.foldl (setDirty true) st.parts) i = false := by
      intro i
      rw [prepThrowsAt_foldlSet, rendThrowsAt_foldlSet]
      exact hidx i
    refine ⟨REvent.renderPass :: REvent.snapshot st.viewportVersion ::
      (beforeEvents st ++ [REvent.renderText st.viewportVersion]), ?_, ?_⟩
    · rw [finalRenderSet_lines h1 h2]
      unfold renderNow
      rw [actualRender_lines h1 h2]
      unfold actualRenderLines
      rw [renderPhases_ok (by
        rw [prepareLoop_ok (fun i _ => (hps1 i).1)])]
      rw [prepareLoop_ok (fun i _ => (hps1 i).1),
        commitLoop_ok (fun i _ => (hps1 i).2)]
      simp
    · intro e he
      rcases List.mem_cons.mp he with rfl | he
      · exact ⟨rfl, rfl⟩
      rcases List.mem_cons.mp he with rfl | he
      · exact ⟨rfl, rfl⟩
      rcases List.mem_append.mp he with he | he
      · rw [mem_beforeEvents he]; exact ⟨rfl, rfl⟩
      · rcases List.mem_singleton.mp he with rfl
        exact ⟨rfl, rfl⟩
  · have h2f : st.viewLinesDirty = false := Bool.not_eq_true _ ▸ h2
    by_cases h3 : getViewPartsToRender st.parts = []
    · refine ⟨[REvent.renderPass], ?_, ?_⟩
      · rw [finalRenderSet_nothing h2f h3]
        unfold renderNow
        rw [actualRender_nothing h2f h3]
        simp
      · intro e he
        rcases List.mem_singleton.mp he with rfl
        exact ⟨rfl, rfl⟩
    · refine ⟨REvent.renderPass :: REvent.snapshot st.viewportVersion :: beforeEvents st, ?_, ?_⟩
      · rw [finalRenderSet_plain h1 h2f h3]
        unfold renderNow
        rw [actualRender_plain h1 h2f h3]
        rw [renderPhases_ok (by
          rw [prepareLoop_ok (fun i _ => (hidx i).1)])]
        rw [prepareLoop_ok (fun i _ => (hidx i).1),
          commitLoop_ok (fun i _ => (hidx i).2)]
        simp
      · intro e he
        rcases List.mem_cons.mp he with rfl | he
        · exact ⟨rfl, rfl⟩
        rcases List.mem_cons.mp he with rfl | he
        · exact ⟨rfl, rfl⟩
        rw [mem_beforeEvents he]
        exact ⟨rfl, rfl⟩

lemma renderPhases_preserves (st : ViewState) (v : Nat) (evPre : List REvent) (l : List Nat) :
    ((renderPhases st v evPre l).1).pending = st.pending ∧
    ((renderPhases st v evPre l).1).inDOM = st.inDOM ∧
    ((renderPhases st v evPre l).1).viewLinesDirty = st.viewLinesDirty ∧
    ((renderPhases st v evPre l).1).nextHandle = st.nextHandle := by
  by_cases hp : (prepareLoop st.parts v l).2 = true
  · rw [renderPhases_threw hp]
    exact ⟨rfl, rfl, rfl, rfl⟩
  · rw [renderPhases_ok (Bool.not_eq_true _ ▸ hp)]
    exact ⟨rfl, rfl, rfl, rfl⟩

lemma actualRender_preserves (st : ViewState) :
    ((actualRender st).1).pending = st.pending ∧
    ((actualRender st).1).inDOM = st.inDOM ∧
    ((actualRender st).1).nextHandle = st.nextHandle := by
  by_cases h1 : st.inDOM = true
  case neg =>
    rw [actualRender_notInDOM (Bool.not_eq_true _ ▸ h1)]
    exact ⟨rfl, rfl, rfl⟩
  by_cases h2 : st.viewLinesDirty = true
  · rw [actualRender_lines h1 h2]
    unfold actualRenderLines
    have := renderPhases_preserves
      { st with parts := st.viewLinesScrollDirties.foldl (setDirty true) st.parts,
                viewLinesDirty := false, viewportVersion := st.viewportVersion + 1 }
      st.viewportVersion
      (REvent.snapshot st.viewportVersion :: beforeEvents st ++ [REvent.renderText st.viewportVersion])
      (getViewPartsToRender (st.viewLinesScrollDirties.foldl (setDirty true) st.parts))
    exact ⟨this.1, this.2.1, this.2.2.2⟩
  · have h2f : st.viewLinesDirty = false := Bool.not_eq_true _ ▸ h2
    by_cases h3 : getViewPartsToRender st.parts = []
    · rw [actualRender_nothing h2f h3]
      exact ⟨rfl, rfl, rfl⟩
    · rw [actualRender_plain h1 h2f h3]
      have := renderPhases_preserves st st.viewportVersion
        (REvent.snapshot st.viewportVersion :: beforeEvents st)
        (getViewPartsToRender st.parts)
      exact ⟨this.1, this.2.1, this.2.2.2⟩

/-- After a flush that throws nowhere, every part's dirty flag is clear
and the view lines are clean (provided the view is attached). -/
lemma renderNow_clean (st : ViewState)
    (hno : ∀ p ∈ st.parts, p.prepareThrows = false ∧ p.renderThrows = false)
    (h1 : st.inDOM = true) :
    getViewPartsToRender ((renderNow st).1).parts = [] ∧
    ((renderNow st).1).viewLinesDirty = false := by
  have hidx := noThrowIdx hno
  unfold renderNow
  by_cases h2 : st.viewLinesDirty = true
  · rw [actualRender_lines h1 h2]
    unfold actualRenderLines
    have hps1 : ∀ i, prepThrowsAt (st.viewLinesScrollDirties.foldl (setDirty true) st.parts) i = false ∧
        rendThrowsAt (st.viewLinesScrollDirties.foldl (setDirty true) st.parts) i = false := by
      intro i
      rw [prepThrowsAt_foldlSet, rendThrowsAt_foldlSet]
      exact hidx i
    rw [renderPhases_ok (by rw [prepareLoop_ok (fun i _ => (hps1 i).1)]),
      commitLoop_ok (fun i _ => (hps1 i).2)]
    exact ⟨getViewPartsToRender_clear _, rfl⟩
  · have h2f : st.viewLinesDirty = false := Bool.not_eq_true _ ▸ h2
    by_cases h3 : getViewPartsToRender st.parts = []
    · rw [actualRender_nothing h2f h3]
      exact ⟨h3, h2f⟩
    · rw [actualRender_plain h1 h2f h3]
      rw [renderPhases_ok (by rw [prepareLoop_ok (fun i _ => (hidx i).1)]),
        commitLoop_ok (fun i _ => (hidx i).2)]
      exact ⟨getViewPartsToRender_clear _, h2f⟩

lemma renderNow_no_commits {st : ViewState}
    (h : st.inDOM = false ∨ (st.viewLinesDirty = false ∧ getViewPartsToRender st.parts = [])) :
    commitPids (renderNow st).2 = [] := by
  unfold renderNow
  rcases h with h | ⟨h2, h3⟩
  · rw [actualRender_notInDOM h]
    rfl
  · rw [actualRender_nothing h2 h3]
    rfl

lemma commitPids_renderNow (st : ViewState) :
    commitPids (renderNow st).2 = commitPids (actualRender st).2.1 := by
  unfold renderNow
  by_cases ht : (actualRender st).2.2 = true <;>
    simp [ht, commitPids, List.filterMap_append]

lemma preparePids_renderNow (st : ViewState) :
    preparePids (renderNow st).2 = preparePids (actualRender st).2.1 := by
  unfold renderNow
  by_cases ht : (actualRender st).2.2 = true <;>
    simp [ht, preparePids, List.filterMap_append]

lemma countEv_error_actualRender (st : ViewState) :
    countEv REvent.errorReported (actualRender st).2.1 = 0 := by
  unfold countEv
  rw [List.count_eq_zero]
  intro h
  have := actualRender_events h
  simp [passEvent] at this

/-- The error sink is called exactly once when the pass threw, never
otherwise. -/
lemma countEv_error_renderNow (st : ViewState) :
    countEv REvent.errorReported (renderNow st).2 =
      if (actualRender st).2.2 = true then 1 else 0 := by
  have h0 := countEv_error_actualRender st
  unfold countEv at h0 ⊢
  unfold renderNow
  by_cases ht : (actualRender st).2.2 = true <;>
    simp [ht, List.count_cons, List.count_append, h0]

lemma phasePrecedes_append (t1 t2 : List REvent)
    (h1 : ∀ e ∈ t1, isCommitEv e = false) (h2 : ∀ e ∈ t2, isPrepareEv e = false) :
    phasePrecedes (t1 ++ t2) := by
  intro i hi j hj hp hc
  have hlen : (t1 ++ t2).length = t1.length + t2.length := by simp
  have hilt : i < t1.length := by
    by_contra hge
    have hge' : t1.length ≤ i := Nat.le_of_not_lt hge
    have hi2 : i - t1.length < t2.length := by omega
    have : (t1 ++ t2).get ⟨i, hi⟩ = t2.get ⟨i - t1.length, hi2⟩ := by
      simp only [List.get_eq_getElem]
      exact List.getElem_append_right hge'
    rw [this] at hp
    rw [h2 _ (List.get_mem t2 _ hi2)] at hp
    exact Bool.noConfusion hp
  have hjge : t1.length ≤ j := by
    by_contra hge
    have hj1 : j < t1.length := Nat.lt_of_not_le hge
    have : (t1 ++ t2).get ⟨j, hj⟩ = t1.get ⟨j, hj1⟩ := by
      simp only [List.get_eq_getElem]
      exact List.getElem_append_left hj1
    rw [this] at hc
    rw [h1 _ (List.get_mem t1 _ hj1)] at hc
    exact Bool.noConfusion hc
  omega

lemma commitPids_beforeEvents (st : ViewState) :
    commitPids (beforeEvents st) = [] := by
  apply commitPids_eq_nil
  intro e he
  rw [mem_beforeEvents he]
  rfl

lemma commitPids_prepareLoop (ps : List PartState) (v : Nat) (l : List Nat) :
    commitPids (prepareLoop ps v l).1 = [] := by
  apply commitPids_eq_nil
  intro e he
  rcases mem_prepareLoop he with ⟨i, rfl⟩
  rfl

lemma commitPids_renderNow_noThrow (st : ViewState)
    (hno : ∀ p ∈ st.parts, p.prepareThrows = false ∧ p.renderThrows = false) :
    commitPids (renderNow st).2 = finalRenderSet st := by
  rcases renderNow_noThrow_decomp st hno with ⟨pre, htr, hpre⟩
  rw [htr, commitPids_append, commitPids_append,
    commitPids_eq_nil (fun e he => (hpre e he).2),
    commitPids_map_prepare, commitPids_bind_commit]
  simp

lemma preparePids_renderNow_noThrow (st : ViewState)
    (hno : ∀ p ∈ st.parts, p.prepareThrows = false ∧ p.renderThrows = false) :
    preparePids (renderNow st).2 = finalRenderSet st := by
  rcases renderNow_noThrow_decomp st hno with ⟨pre, htr, hpre⟩
  rw [htr, preparePids_append, preparePids_append,
    preparePids_eq_nil (fun e he => (hpre e he).1),
    preparePids_map_prepare, preparePids_bind_commit]
  simp

lemma finalRenderSet_of_viewLines_clean {st : ViewState} (h1 : st.inDOM = true)
    (h2 : st.viewLinesDirty = false) :
    finalRenderSet st = getViewPartsToRender st.parts := by
  by_cases h3 : getViewPartsToRender st.parts = []
  · rw [finalRenderSet_nothing h2 h3, h3]
  · exact finalRenderSet_plain h1 h2 h3

/-- C3 (two-phase render discipline): in a render pass in which no part
throws, every `prepareRender` call happens strictly before every part
`render` call, and both phases run over exactly the final dirty set, in
order: the prepare-call order and the commit-call order both equal the
set of parts the pass collected. -/
theorem View_two_phase_discipline (st : ViewState)
    (hno : ∀ p ∈ st.parts, p.prepareThrows = false ∧ p.renderThrows = false) :
    phasePrecedes (renderNow st).2 ∧
    preparePids (renderNow st).2 = finalRenderSet st ∧
    commitPids (renderNow st).2 = finalRenderSet st := by
  refine ⟨?_, preparePids_renderNow_noThrow st hno, commitPids_renderNow_noThrow st hno⟩
  rcases renderNow_noThrow_decomp st hno with ⟨pre, htr, hpre⟩
  rw [htr]
  apply phasePrecedes_append
  · intro e he
    rcases List.mem_append.mp he with he | he
    · exact (hpre e he).2
    · rcases List.mem_map.mp he with ⟨i, _, rfl⟩
      rfl
  · intro e he
    simp only [List.mem_bind] at he
    rcases he with ⟨i, _, hi⟩
    rcases List.mem_cons.mp hi with rfl | hi
    · rfl
    · rcases List.mem_singleton.mp hi with rfl
      rfl

/-- Witness for C3: three registered parts with the first and third dirty,
the content-widgets part at index 0, and dirty view lines whose render
marks part 1 dirty as well. -/
theorem View_two_phase_discipline_witness :
    phasePrecedes (renderNow ⟨true, none, 0, 5, true, [1], some 0,
      [⟨true, false, false⟩, ⟨false, false, false⟩, ⟨true, false, false⟩]⟩).2 ∧
    preparePids (renderNow ⟨true, none, 0, 5, true, [1], some 0,
      [⟨true, false, false⟩, ⟨false, false, false⟩, ⟨true, false, false⟩]⟩).2 =
      finalRenderSet ⟨true, none, 0, 5, true, [1], some 0,
        [⟨true, false, false⟩, ⟨false, false, false⟩, ⟨true, false, false⟩]⟩ ∧
    commitPids (renderNow ⟨true, none, 0, 5, true, [1], some 0,
      [⟨true, false, false⟩, ⟨false, false, false⟩, ⟨true, false, false⟩]⟩).2 =
      finalRenderSet ⟨true, none, 0, 5, true, [1], some 0,
        [⟨true, false, false⟩, ⟨false, false, false⟩, ⟨true, false, false⟩]⟩ :=
  View_two_phase_discipline _ (by decide)

/-- C4 (dirty-set selection and ordering): with clean view lines, a flush
commits exactly the parts whose `shouldRender()` reports true, in
registration (index) order — a part is committed iff its dirty flag is
set, the commit order is strictly increasing in registration index, and
the commit order is the same for every view whose parts have the same
dirty state. -/
theorem View_dirty_set_selection (st : ViewState)
    (h1 : st.inDOM = true) (h2 : st.viewLinesDirty = false)
    (hno : ∀ p ∈ st.parts, p.prepareThrows = false ∧ p.renderThrows = false) :
    commitPids (renderNow st).2 = getViewPartsToRender st.parts ∧
    (∀ i, i ∈ commitPids (renderNow st).2 ↔
      ∃ p, st.parts.get? i = some p ∧ p.dirty = true) ∧
    (commitPids (renderNow st).2).Pairwise (· < ·) ∧
    (∀ st2 : ViewState, st2.parts = st.parts → st2.inDOM = true →
      st2.viewLinesDirty = false →
      commitPids (renderNow st2).2 = commitPids (renderNow st).2) := by
  have hmain : commitPids (renderNow st).2 = getViewPartsToRender st.parts := by
    rw [commitPids_renderNow_noThrow st hno, finalRenderSet_of_viewLines_clean h1 h2]
  refine ⟨hmain, ?_, ?_, ?_⟩
  · intro i
    rw [hmain, mem_getViewPartsToRender, shouldRenderAt_eq_true_iff]
  · rw [hmain]
    exact pairwise_getViewPartsToRender st.parts
  · intro st2 hp hin2 hvl2
    have hno2 : ∀ p ∈ st2.parts, p.prepareThrows = false ∧ p.renderThrows = false := by
      rw [hp]; exact hno
    rw [hmain, commitPids_renderNow_noThrow st2 hno2,
      finalRenderSet_of_viewLines_clean hin2 hvl2, hp]

/-- Witness for C4, the A/B/C scenario: parts A, B, C registered in that
order with only B (index 1) dirty — the flush commits exactly [1]. -/
theorem View_dirty_set_selection_witness :
    commitPids (renderNow ⟨true, none, 0, 0, false, [], none,
      [⟨false, false, false⟩, ⟨true, false, false⟩, ⟨false, false, false⟩]⟩).2 =
      getViewPartsToRender
        [⟨false, false, false⟩, ⟨true, false, false⟩, ⟨false, false, false⟩] ∧
    (∀ i, i ∈ commitPids (renderNow ⟨true, none, 0, 0, false, [], none,
      [⟨false, false, false⟩, ⟨true, false, false⟩, ⟨false, false, false⟩]⟩).2 ↔
      ∃ p, [(⟨false, false, false⟩ : PartState), ⟨true, false, false⟩,
        ⟨false, false, false⟩].get? i = some p ∧ p.dirty = true) ∧
    (commitPids (renderNow ⟨true, none, 0, 0, false, [], none,
      [⟨false, false, false⟩, ⟨true, false, false⟩, ⟨false, false, false⟩]⟩).2).Pairwise (· < ·) ∧
    (∀ st2 : ViewState,
      st2.parts = [⟨false, false, false⟩, ⟨true, false, false⟩, ⟨false, false, false⟩] →
      st2.inDOM = true → st2.viewLinesDirty = false →
      commitPids (renderNow st2).2 =
        commitPids (renderNow ⟨true, none, 0, 0, false, [], none,
          [⟨false, false, false⟩, ⟨true, false, false⟩, ⟨false, false, false⟩]⟩).2) :=
  View_dirty_set_selection _ rfl rfl (by decide)

/-- Counterexample for C5 as stated: with a frame pending (handle 0) and a
dirty part, `View.render(now := true, everything := false)` executes the
pass but does not clear `_renderAnimationFrame` — the pending handle is
still `some 0` afterwards, not `none`. -/
theorem View_flush_pending_counterexample :
    ((render true false ⟨true, some 0, 1, 0, false, [], none,
        [⟨true, false, false⟩]⟩).1).pending = some 0 ∧
    ¬((render true false ⟨true, some 0, 1, 0, false, [], none,
        [⟨true, false, false⟩]⟩).1).pending = none := by
  decide

/-- C5 as amended: `View.render(now := true)` executes the render pass
synchronously regardless of whether a frame is pending, and leaves the
pending handle exactly as it was (it is *not* cleared); nevertheless the
previously scheduled callback, when the host later fires it, finds all
dirty flags already cleared by the flush and commits nothing — no second
effective render pass occurs (assuming no part threw). -/
theorem View_flush_now_amended (st : ViewState)
    (hno : ∀ p ∈ st.parts, p.prepareThrows = false ∧ p.renderThrows = false) :
    countEv REvent.renderPass (render true false st).2 = 1 ∧
    ((render true false st).1).pending = st.pending ∧
    commitPids (onRenderScheduled ((render true false st).1)).2 = [] := by
  have hr : render true false st = renderNow st := rfl
  refine ⟨?_, ?_, ?_⟩
  · rw [hr]
    exact countEv_renderPass_renderNow st
  · rw [hr]
    exact (actualRender_preserves st).1
  · rw [hr]
    unfold onRenderScheduled flushAccumulatedAndRenderNow
    apply renderNow_no_commits
    by_cases hin : st.inDOM = true
    · right
      have hc := renderNow_clean st hno hin
      exact ⟨hc.2, hc.1⟩
    · left
      have : ((renderNow st).1).inDOM = st.inDOM := (actualRender_preserves st).2.1
      rw [this]
      exact Bool.not_eq_true _ ▸ hin

/-- Witness for the amended C5: a view with a pending frame (handle 7),
dirty view lines whose render dirties part 1, and a dirty part 0. -/
theorem View_flush_now_amended_witness :
    countEv REvent.renderPass (render true false ⟨true, some 7, 8, 0, true, [1], some 0,
      [⟨true, false, false⟩, ⟨false, false, false⟩]⟩).2 = 1 ∧
    ((render true false ⟨true, some 7, 8, 0, true, [1], some 0,
      [⟨true, false, false⟩, ⟨false, false, false⟩]⟩).1).pending = some 7 ∧
    commitPids (onRenderScheduled ((render true false ⟨true, some 7, 8, 0, true, [1], some 0,
      [⟨true, false, false⟩, ⟨false, false, false⟩]⟩).1)).2 = [] :=
  View_flush_now_amended ⟨true, some 7, 8, 0, true, [1], some 0,
    [⟨true, false, false⟩, ⟨false, false, false⟩]⟩ (by decide)

lemma shouldRenderAt_map_dirty {ps : List PartState} {i : Nat} (h : i < ps.length) :
    shouldRenderAt (ps.map (fun p => { p with dirty := true })) i = true := by
  unfold shouldRenderAt
  rw [List.get?_map]
  cases hq : ps.get? i with
  | none => exact absurd (List.get?_eq_none.mp hq) (Nat.not_le_of_lt h)
  | some p => rfl

/-- C6 (force-render completeness): `View.render(now := true,
everything := true)` — `forceShouldRender()` on the view lines and every
part, then a flush — commits every registered part, in registration
order, regardless of prior dirty state (assuming the view is attached and
no part throws). -/
theorem View_force_render_everything (st : ViewState) (h1 : st.inDOM = true)
    (hno : ∀ p ∈ st.parts, p.prepareThrows = false ∧ p.renderThrows = false) :
    commitPids (render true true st).2 = List.range st.parts.length := by
  have hr : render true true st =
      renderNow { st with
        viewLinesDirty := true,
        parts := st.parts.map (fun p => { p with dirty := true }) } := rfl
  rw [hr]
  have hnoF : ∀ p ∈ (st.parts.map (fun p => { p with dirty := true })),
      p.prepareThrows = false ∧ p.renderThrows = false := by
    intro p hp
    rcases List.mem_map.mp hp with ⟨q, hq, rfl⟩
    exact hno q hq
  rw [commitPids_renderNow_noThrow _ hnoF,
    @finalRenderSet_lines { st with
      viewLinesDirty := true,
      parts := st.parts.map (fun p => { p with dirty := true }) } h1 rfl]
  have hlen : (st.viewLinesScrollDirties.foldl (setDirty true)
      (st.parts.map (fun p => { p with dirty := true }))).length = st.parts.length := by
    rw [length_foldlSet, List.length_map]
  unfold getViewPartsToRender
  rw [hlen]
  apply List.filter_eq_self.mpr
  intro i hi
  have hilt : i < st.parts.length := List.mem_range.mp hi
  rw [shouldRenderAt_foldlSet_true]
  have hbase : shouldRenderAt (st.parts.map (fun p => { p with dirty := true })) i = true :=
    shouldRenderAt_map_dirty hilt
  by_cases hc : i ∈ st.viewLinesScrollDirties ∧
      i < (st.parts.map (fun p => { p with dirty := true })).length
  · rw [if_pos hc]
  · rw [if_neg hc]
    exact hbase

/-- Witness for C6: two parts, both initially clean, one of them the
content-widgets part; forcing everything renders both. -/
theorem View_force_render_everything_witness :
    commitPids (render true true ⟨true, none, 0, 3, false, [], some 1,
      [⟨false, false, false⟩, ⟨false, false, false⟩]⟩).2 =
      List.range ([⟨false, false, false⟩,
        (⟨false, false, false⟩ : PartState)].length) :=
  View_force_render_everything _ rfl (by decide)

lemma snapshotCount_append (t1 t2 : List REvent) :
    snapshotCount (t1 ++ t2) = snapshotCount t1 + snapshotCount t2 := by
  unfold snapshotCount
  rw [List.countP_append]

lemma snapshotCount_prepareLoop (ps : List PartState) (v : Nat) (l : List Nat) :
    snapshotCount (prepareLoop ps v l).1 = 0 := by
  unfold snapshotCount
  rw [List.countP_eq_zero]
  intro e he
  rcases mem_prepareLoop he with ⟨i, rfl⟩
  simp

lemma snapshotCount_commitLoop (v : Nat) (ps : List PartState) (l : List Nat) :
    snapshotCount (commitLoop v ps l).2.1 = 0 := by
  unfold snapshotCount
  rw [List.countP_eq_zero]
  intro e he
  rcases mem_commitLoop he with ⟨i, rfl⟩ | ⟨i, rfl⟩ <;> simp

lemma snapshotCount_beforeEvents (st : ViewState) :
    snapshotCount (beforeEvents st) = 0 := by
  unfold snapshotCount
  rw [List.countP_eq_zero]
  intro e he
  rw [mem_beforeEvents he]
  simp

lemma snapshotCount_renderPhases (st : ViewState) (v : Nat) (evPre : List REvent)
    (l : List Nat) :
    snapshotCount (renderPhases st v evPre l).2.1 = snapshotCount evPre := by
  by_cases hp : (prepareLoop st.parts v l).2 = true
  · rw [renderPhases_threw hp, snapshotCount_append, snapshotCount_prepareLoop]
    omega
  · rw [renderPhases_ok (Bool.not_eq_true _ ▸ hp), snapshotCount_append,
      snapshotCount_append, snapshotCount_prepareLoop, snapshotCount_commitLoop]
    omega

lemma snapshotCount_renderNow (st : ViewState) :
    snapshotCount (renderNow st).2 = snapshotCount (actualRender st).2.1 := by
  unfold renderNow snapshotCount
  by_cases ht : (actualRender st).2.2 = true <;>
    simp [ht, List.countP_append, List.countP_cons]

lemma viewportOf_of_passEvent {v : Nat} {e : REvent} (h : passEvent v e) :
    ∀ w, viewportOf e = some w → w = v := by
  intro w hw
  cases e <;> simp [passEvent] at h <;> simp [viewportOf] at hw <;> omega

/-- C7 (single immutable viewport snapshot per pass): whenever the pass
body runs (the view is attached and something is dirty), exactly one
`ViewportData` value is constructed during the pass, and every callback of
the pass — `onBeforeRender`, `renderText`, every `prepareRender` and every
part `render`, via the one `RenderingContext` — receives that same
snapshot, the viewport state captured at the start of the pass (snapshot
values are immutable by construction in this model; in particular the
viewport-state bump caused by `renderText`'s scroll side effects does not
change the snapshot the phases receive). -/
theorem View_single_snapshot (st : ViewState) (h1 : st.inDOM = true)
    (h2 : st.viewLinesDirty = true ∨ getViewPartsToRender st.parts ≠ []) :
    snapshotCount (renderNow st).2 = 1 ∧
    (∀ e ∈ (renderNow st).2, ∀ w, viewportOf e = some w → w = st.viewportVersion) := by
  constructor
  · rw [snapshotCount_renderNow]
    by_cases hvl : st.viewLinesDirty = true
    · rw [actualRender_lines h1 hvl]
      simp only [actualRenderLines]
      rw [snapshotCount_renderPhases]
      have hb := snapshotCount_beforeEvents st
      unfold snapshotCount at hb ⊢
      simp [List.countP_cons, List.countP_append, hb]
    · have hvl' : st.viewLinesDirty = false := Bool.not_eq_true _ ▸ hvl
      have h3 : getViewPartsToRender st.parts ≠ [] := by
        rcases h2 with h2 | h2
        · exact absurd h2 (by rw [hvl']; exact Bool.false_ne_true)
        · exact h2
      rw [actualRender_plain h1 hvl' h3]
      rw [snapshotCount_renderPhases]
      have hb := snapshotCount_beforeEvents st
      unfold snapshotCount at hb ⊢
      simp [List.countP_cons, hb]
  · intro e he w hw
    unfold renderNow at he
    rcases List.mem_cons.mp he with rfl | he
    · simp [viewportOf] at hw
    rcases List.mem_append.mp he with he | he
    · exact viewportOf_of_passEvent (actualRender_events he) w hw
    · rcases hb : (actualRender st).2.2 with _ | _ <;> rw [hb] at he
      · simp at he
      · rcases List.mem_singleton.mp he with rfl
        simp [viewportOf] at hw

/-- Witness for C7: dirty view lines whose render dirties part 1 and bumps
the viewport state, a dirty content-widgets part 0 whose `prepareRender`
throws — the snapshot is still built once, and every callback got
viewport snapshot 42. -/
theorem View_single_snapshot_witness :
    snapshotCount (renderNow ⟨true, none, 0, 42, true, [1], some 0,
      [⟨true, true, false⟩, ⟨false, false, false⟩]⟩).2 = 1 ∧
    (∀ e ∈ (renderNow ⟨true, none, 0, 42, true, [1], some 0,
      [⟨true, true, false⟩, ⟨false, false, false⟩]⟩).2,
      ∀ w, viewportOf e = some w → w = 42) :=
  View_single_snapshot ⟨true, none, 0, 42, true, [1], some 0,
    [⟨true, true, false⟩, ⟨false, false, false⟩]⟩ rfl (by decide)

lemma commitPids_snapshot_before (st : ViewState) :
    commitPids (REvent.snapshot st.viewportVersion :: beforeEvents st) = [] := by
  apply commitPids_eq_nil
  intro e he
  rcases List.mem_cons.mp he with rfl | he
  · rfl
  · rw [mem_beforeEvents he]
    rfl

/-- C2 (render-pass failure containment): when the dirty set is
`l1 ++ j :: l2`, the parts of `l1` are well-behaved and part `j`'s
`prepareRender` or `render` throws, a flush reports to the
unexpected-error sink exactly once, commits at most `l1 ++ [j]` (never
anything of `l2`, the remainder of the pass being aborted), and the
scheduler stays usable: a subsequent request-render plus host callback
still executes exactly one render pass. -/
theorem View_render_error_containment (st : ViewState) (l1 l2 : List Nat) (j : Nat)
    (h1 : st.inDOM = true) (h2 : st.viewLinesDirty = false)
    (hsplit : getViewPartsToRender st.parts = l1 ++ j :: l2)
    (hok : ∀ i ∈ l1, prepThrowsAt st.parts i = false ∧ rendThrowsAt st.parts i = false)
    (hthrow : prepThrowsAt st.parts j = true ∨ rendThrowsAt st.parts j = true) :
    countEv REvent.errorReported (renderNow st).2 = 1 ∧
    (commitPids (renderNow st).2 = [] ∨ commitPids (renderNow st).2 = l1 ++ [j]) ∧
    (∀ k ∈ l2, k ∉ commitPids (renderNow st).2) ∧
    countEv REvent.renderPass (onRenderScheduled (scheduleRender (renderNow st).1)).2 = 1 := by
  have h3 : getViewPartsToRender st.parts ≠ [] := by
    rw [hsplit]
    simp
  have hAR := actualRender_plain h1 h2 h3
  have hkey : (actualRender st).2.2 = true ∧
      (commitPids (actualRender st).2.1 = [] ∨
        commitPids (actualRender st).2.1 = l1 ++ [j]) := by
    rw [hAR, hsplit]
    by_cases hpj : prepThrowsAt st.parts j = true
    · have hpr : prepareLoop st.parts st.viewportVersion (l1 ++ j :: l2) =
          (l1.map (fun i => REvent.prepare i st.viewportVersion) ++
            [REvent.prepare j st.viewportVersion], true) := by
        rw [prepareLoop_append (fun i hi => (hok i hi).1),
          prepareLoop_throwsHead l2 hpj]
      rw [renderPhases_threw (by rw [hpr])]
      refine ⟨rfl, Or.inl ?_⟩
      rw [commitPids_append, commitPids_snapshot_before, hpr, commitPids_append,
        commitPids_map_prepare]
      rfl
    · have hpj' : prepThrowsAt st.parts j = false := Bool.not_eq_true _ ▸ hpj
      have hcons : prepareLoop st.parts st.viewportVersion (j :: l2) =
          (REvent.prepare j st.viewportVersion ::
            (prepareLoop st.parts st.viewportVersion l2).1,
           (prepareLoop st.parts st.viewportVersion l2).2) := by
        simp [prepareLoop, hpj']
      by_cases hb : (prepareLoop st.parts st.viewportVersion l2).2 = true
      · have hpr : (prepareLoop st.parts st.viewportVersion (l1 ++ j :: l2)).2 = true := by
          rw [prepareLoop_append (fun i hi => (hok i hi).1), hcons]
          exact hb
        rw [renderPhases_threw hpr]
        refine ⟨rfl, Or.inl ?_⟩
        rw [commitPids_append, commitPids_snapshot_before, commitPids_prepareLoop]
        rfl
      · have hrj : rendThrowsAt st.parts j = true := by
          rcases hthrow with ht | ht
          · exact absurd ht hpj
          · exact ht
        have hprfull : (prepareLoop st.parts st.viewportVersion (l1 ++ j :: l2)).2 = false := by
          rw [prepareLoop_append (fun i hi => (hok i hi).1), hcons]
          exact Bool.not_eq_true _ ▸ hb
        rw [renderPhases_ok hprfull]
        have hjc : rendThrowsAt (l1.foldl (setDirty false) st.parts) j = true := by
          rw [rendThrowsAt_foldlSet]
          exact hrj
        have hcm := @commitLoop_append st.viewportVersion st.parts l1 (j :: l2)
          (fun i hi => (hok i hi).2)
        refine ⟨?_, Or.inr ?_⟩
        · rw [hcm, commitLoop_throwsHead l2 hjc]
        · rw [commitPids_append, commitPids_append, commitPids_snapshot_before,
            commitPids_prepareLoop, hcm, commitLoop_throwsHead l2 hjc,
            commitPids_append, commitPids_bind_commit]
          rfl
  refine ⟨?_, ?_, ?_, ?_⟩
  · rw [countEv_error_renderNow, hkey.1]
    rfl
  · rw [commitPids_renderNow]
    exact hkey.2
  · intro k hk hmem
    rw [commitPids_renderNow] at hmem
    rcases hkey.2 with hc | hc
    · rw [hc] at hmem
      exact absurd hmem (List.not_mem_nil k)
    · rw [hc] at hmem
      have hpw := pairwise_getViewPartsToRender st.parts
      rw [hsplit, List.pairwise_append] at hpw
      rcases hpw with ⟨hp1, hp2, hp12⟩
      have hjk : j < k := (List.pairwise_cons.mp hp2).1 k hk
      rcases List.mem_append.mp hmem with hm | hm
      · exact absurd (hp12 k hm k (List.mem_cons_of_mem j hk)) (Nat.lt_irrefl k)
      · rcases List.mem_singleton.mp hm with rfl
        exact absurd hjk (Nat.lt_irrefl k)
  · unfold onRenderScheduled flushAccumulatedAndRenderNow
    exact countEv_renderPass_renderNow _

/-- Witness for C2: three dirty parts; part 1's `render` throws.  The
dirty set splits as `[0] ++ 1 :: [2]`. -/
theorem View_render_error_containment_witness :
    countEv REvent.errorReported (renderNow ⟨true, none, 0, 0, false, [], none,
      [⟨true, false, false⟩, ⟨true, false, true⟩, ⟨true, false, false⟩]⟩).2 = 1 ∧
    (commitPids (renderNow ⟨true, none, 0, 0, false, [], none,
      [⟨true, false, false⟩, ⟨true, false, true⟩, ⟨true, false, false⟩]⟩).2 = [] ∨
     commitPids (renderNow ⟨true, none, 0, 0, false, [], none,
      [⟨true, false, false⟩, ⟨true, false, true⟩, ⟨true, false, false⟩]⟩).2 = [0] ++ [1]) ∧
    (∀ k ∈ [2], k ∉ commitPids (renderNow ⟨true, none, 0, 0, false, [], none,
      [⟨true, false, false⟩, ⟨true, false, true⟩, ⟨true, false, false⟩]⟩).2) ∧
    countEv REvent.renderPass (onRenderScheduled (scheduleRender
      (renderNow ⟨true, none, 0, 0, false, [], none,
        [⟨true, false, false⟩, ⟨true, false, true⟩, ⟨true, false, false⟩]⟩).1)).2 = 1 :=
  View_render_error_containment ⟨true, none, 0, 0, false, [], none,
      [⟨true, false, false⟩, ⟨true, false, true⟩, ⟨true, false, false⟩]⟩
    [0] [2] 1 rfl rfl (by decide) (by decide) (by decide)

lemma applyZoneOp_eq (flag : Bool) (o : ZoneOp) :
    applyZoneOp flag o = (flag || changingOp o) := by
  cases o with
  | addZone => simp [applyZoneOp, changingOp]
  | removeZone id c =>
    show (if id = 0 then flag else (c || flag)) = (flag || (if id = 0 then false else c))
    by_cases hid : id = 0
    · rw [if_pos hid, if_pos hid, Bool.or_false]
    · rw [if_neg hid, if_neg hid]
      exact Bool.or_comm c flag
  | layoutZone id c =>
    show (if id = 0 then flag else (c || flag)) = (flag || (if id = 0 then false else c))
    by_cases hid : id = 0
    · rw [if_pos hid, if_pos hid, Bool.or_false]
    · rw [if_neg hid, if_neg hid]
      exact Bool.or_comm c flag

lemma runCallback_eq (flag : Bool) (cb : List CbStep) :
    runCallback flag cb =
      (flag || (executedOps cb).any changingOp, cb.any isThrowStep) := by
  induction cb generalizing flag with
  | nil => simp [runCallback, executedOps]
  | cons s rest ih =>
    cases s with
    | throwErr => simp [runCallback, executedOps, isThrowStep, List.takeWhile]
    | op o =>
      have hstep : runCallback flag (CbStep.op o :: rest) =
          runCallback (applyZoneOp flag o) rest := rfl
      rw [hstep, ih]
      have hex : executedOps (CbStep.op o :: rest) = o :: executedOps rest := by
        simp [executedOps, isThrowStep, List.takeWhile]
      rw [hex]
      simp [isThrowStep, applyZoneOp_eq, Bool.or_assoc]

/-- C10 (`View.change` atomic reporting under callback failure): the
callback's exception never escapes `change` — the error sink is called
exactly once when the callback throws and never otherwise; `change`
returns true iff, before any exception, the callback added a zone or
removed/laid out a zone (with a non-falsy id) whose operation reported a
change; and exactly when it returns true, the layout is notified and a
zones-changed event is emitted, each exactly once. -/
theorem View_change_atomic (st : ViewState) (cb : List CbStep) :
    countEv REvent.errorReported (change st cb).2.2 =
      (if cb.any isThrowStep then 1 else 0) ∧
    ((change st cb).1 = true ↔ (executedOps cb).any changingOp = true) ∧
    countEv REvent.heightChanged (change st cb).2.2 =
      (if (change st cb).1 then 1 else 0) ∧
    countEv REvent.zonesChanged (change st cb).2.2 =
      (if (change st cb).1 then 1 else 0) := by
  have hrc := runCallback_eq false cb
  rw [Bool.false_or] at hrc
  by_cases hx : (executedOps cb).any changingOp = true
  · by_cases hy : cb.any isThrowStep = true
    · simp [change, hrc, hx, hy, countEv]
    · have hy' : cb.any isThrowStep = false := Bool.not_eq_true _ ▸ hy
      simp [change, hrc, hx, hy', countEv]
  · have hx' : (executedOps cb).any changingOp = false := Bool.not_eq_true _ ▸ hx
    by_cases hy : cb.any isThrowStep = true
    · simp [change, hrc, hx', hy, countEv]
    · have hy' : cb.any isThrowStep = false := Bool.not_eq_true _ ▸ hy
      simp [change, hrc, hx', hy', countEv]

lemma mergeLanguage_identifier (rl : IResolvedLanguage) (lang : ILanguageExtensionPoint) :
    (mergeLanguage rl lang).identifier = rl.identifier := by
  obtain ⟨ident, nm, mts, als, exts, fns, cfg⟩ := rl
  cases nm <;>
    · unfold mergeLanguage
      repeat' split
      all_goals rfl

lemma find?_update_keys (l : List (String × IResolvedLanguage)) (s : String)
    (lang : ILanguageExtensionPoint) :
    (l.map (fun kv => if kv.1 = s then (kv.1, mergeLanguage kv.2 lang) else kv)).find?
        (fun kv => kv.1 = s) =
      (l.find? (fun kv => kv.1 = s)).map
        (fun kv => (kv.1, mergeLanguage kv.2 lang)) := by
  induction l with
  | nil => rfl
  | cons kv rest ih =>
    by_cases h : kv.1 = s
    · rw [List.map_cons, if_pos h,
        List.find?_cons_of_pos _ (by simp [h]),
        List.find?_cons_of_pos _ (by simp [h])]
      rfl
    · rw [List.map_cons, if_neg h,
        List.find?_cons_of_neg _ (by simp [h]),
        List.find?_cons_of_neg _ (by simp [h])]
      exact ih

lemma map_of_update {α : Type} (l : List (String × IResolvedLanguage)) (s : String)
    (lang : ILanguageExtensionPoint) (g : (String × IResolvedLanguage) → α)
    (h : ∀ kv : String × IResolvedLanguage, g (kv.1, mergeLanguage kv.2 lang) = g kv) :
    (l.map (fun kv => if kv.1 = s then (kv.1, mergeLanguage kv.2 lang) else kv)).map g =
      l.map g := by
  rw [List.map_map]
  apply List.map_congr_left
  intro kv _
  by_cases hk : kv.1 = s
  · show g (if kv.1 = s then (kv.1, mergeLanguage kv.2 lang) else kv) = g kv
    rw [if_pos hk]
    exact h kv
  · show g (if kv.1 = s then (kv.1, mergeLanguage kv.2 lang) else kv) = g kv
    rw [if_neg hk]

lemma registerLanguage_regInv {r : LanguagesRegistry} (hinv : RegInv r)
    (lang : ILanguageExtensionPoint) : RegInv (registerLanguage r lang) := by
  rcases hinv with ⟨hnext, hids, htable, hlangeq, hkeys⟩
  unfold registerLanguage
  cases hf : r.languages.find? (fun kv => kv.1 = lang.id) with
  | some kv0 =>
    refine ⟨?_, ?_, ?_, ?_, ?_⟩
    · simpa using hnext
    · have := map_of_update r.languages lang.id lang
        (fun kv => kv.2.identifier.id)
        (fun kv => by simp [mergeLanguage_identifier])
      simpa [this] using hids
    · have := map_of_update r.languages lang.id lang
        (fun kv => (kv.2.identifier.id, kv.1))
        (fun kv => by simp [mergeLanguage_identifier])
      simpa [this] using htable
    · intro kv hkv
      simp only [] at hkv
      rcases List.mem_map.mp hkv with ⟨kv1, hkv1, rfl⟩
      by_cases hk : kv1.1 = lang.id
      · rw [if_pos hk]
        simpa [mergeLanguage_identifier] using hlangeq kv1 hkv1
      · rw [if_neg hk]
        exact hlangeq kv1 hkv1
    · have := map_of_update r.languages lang.id lang
        (fun kv => kv.1) (fun kv => rfl)
      simpa [this] using hkeys
  | none =>
    have hnew : lang.id ∉ r.languages.map (fun kv => kv.1) := by
      intro hm
      rcases List.mem_map.mp hm with ⟨kv, hkv, hk⟩
      have := List.find?_eq_none.mp hf kv hkv
      simp [hk] at this
    refine ⟨?_, ?_, ?_, ?_, ?_⟩
    · simp [hnext]
    · simp only [List.map_append, List.map_cons, List.map_nil, List.length_append,
        List.length_cons, List.length_nil]
      rw [hids, mergeLanguage_identifier, hnext]
      have hrc : List.range' 1 (r.languages.length + 1) =
          List.range' 1 r.languages.length ++ [1 + 1 * r.languages.length] :=
        List.range'_concat 1 r.languages.length
      simp only [Nat.one_mul] at hrc
      rw [hrc]
      simp [Nat.add_comm]
    · simp only [List.map_append, List.map_cons, List.map_nil]
      rw [htable, mergeLanguage_identifier]
    · intro kv hkv
      rcases List.mem_append.mp hkv with hkv | hkv
      · exact hlangeq kv hkv
      · rcases List.mem_singleton.mp hkv with rfl
        simp [mergeLanguage_identifier]
    · simp only [List.map_append, List.map_cons, List.map_nil]
      rw [List.nodup_append]
      exact ⟨hkeys, List.nodup_singleton _, by
        intro a ha hb
        rcases List.mem_singleton.mp hb with rfl
        exact hnew ha⟩

lemma registerLanguages_regInv (descs : List ILanguageExtensionPoint) :
    RegInv (registerLanguages initialLanguagesRegistry descs) := by
  have hinit : RegInv initialLanguagesRegistry :=
    ⟨rfl, rfl, rfl, by intro kv hkv; exact absurd hkv (List.not_mem_nil kv), List.nodup_nil⟩
  unfold registerLanguages
  induction descs using List.reverseRecOn with
  | nil => exact hinit
  | append_singleton rest lang ih =>
    rw [List.foldl_append, List.foldl_cons, List.foldl_nil]
    exact registerLanguage_regInv ih lang

lemma find?_of_nodup_keys {α β : Type} [DecidableEq α] (l : List (α × β))
    (hnd : (l.map (fun kv => kv.1)).Nodup) {k : α} {v : β} (hm : (k, v) ∈ l) :
    l.find? (fun kv => kv.1 = k) = some (k, v) := by
  induction l with
  | nil => exact absurd hm (List.not_mem_nil _)
  | cons kv rest ih =>
    rw [List.map_cons, List.nodup_cons] at hnd
    rcases List.mem_cons.mp hm with rfl | hm
    · exact List.find?_cons_of_pos _ (by simp)
    · have hne : ¬(kv.1 = k) := by
        intro he
        apply hnd.1
        rw [he]
        exact List.mem_map.mpr ⟨(k, v), hm, rfl⟩
      rw [List.find?_cons_of_neg _ (by simp [hne])]
      exact ih hnd.2 hm

/-- Counterexample for C8 as stated: register a language whose string id
is the empty string.  It is stored with numeric id 1, but
`getLanguageIdentifier(1)` returns null (the source's falsy
`if (!modeId)` guard fires on the empty string read from
`_languageIds`), so the numeric-id-to-identifier round-trip fails. -/
theorem LanguagesRegistry_roundtrip_counterexample :
    ((findLanguage (registerLanguages initialLanguagesRegistry
        [⟨"", none, none, none, none, none, none, none⟩]) "").map
      (fun rl => rl.identifier)) = some ⟨"", 1⟩ ∧
    getLanguageIdentifierOfId (registerLanguages initialLanguagesRegistry
        [⟨"", none, none, none, none, none, none, none⟩]) 1 = none := by
  exact ⟨rfl, rfl⟩

/-- C8 as amended (restricting the round-trip to languages whose string
id is non-empty): after any registration sequence, the numeric ids of the
stored languages are exactly `1, 2, …` in registration order (distinct
string ids get distinct numeric ids allocated from `_nextLanguageId`
starting at 1); re-registering an already-known string id merges into the
existing entry without allocating (same `_nextLanguageId`, same
identifier); and for a registered language with non-empty string id,
`getLanguageIdentifier` applied to its numeric id returns its
identifier. -/
theorem LanguagesRegistry_id_consistency
    (descs : List ILanguageExtensionPoint) (lang : ILanguageExtensionPoint)
    (rl rl' : IResolvedLanguage) (s : String)
    (hlang : findLanguage (registerLanguages initialLanguagesRegistry descs) lang.id = some rl)
    (hs : findLanguage (registerLanguages initialLanguagesRegistry descs) s = some rl')
    (hse : s ≠ "") :
    ((registerLanguages initialLanguagesRegistry descs).languages.map
        (fun kv => kv.2.identifier.id)) =
      List.range' 1 (registerLanguages initialLanguagesRegistry descs).languages.length ∧
    ((registerLanguages initialLanguagesRegistry descs).languages.map
        (fun kv => kv.2.identifier.id)).Nodup ∧
    (registerLanguage (registerLanguages initialLanguagesRegistry descs) lang).nextLanguageId =
      (registerLanguages initialLanguagesRegistry descs).nextLanguageId ∧
    (∃ rl2, findLanguage
        (registerLanguage (registerLanguages initialLanguagesRegistry descs) lang) lang.id =
          some rl2 ∧ rl2.identifier = rl.identifier) ∧
    getLanguageIdentifierOfId (registerLanguages initialLanguagesRegistry descs)
      rl'.identifier.id = some rl'.identifier := by
  obtain ⟨hnext, hids, htable, hlangeq, hkeys⟩ := registerLanguages_regInv descs
  have hmerge := fun (kv0 : String × IResolvedLanguage) => mergeLanguage_identifier kv0.2 lang
  refine ⟨hids, ?_, ?_, ?_, ?_⟩
  · rw [hids]
    exact List.nodup_range' 1 _
  · unfold registerLanguage
    cases hf : (registerLanguages initialLanguagesRegistry descs).languages.find?
        (fun kv => kv.1 = lang.id) with
    | none =>
      unfold findLanguage at hlang
      rw [hf] at hlang
      exact Option.noConfusion hlang
    | some kv0 => rfl
  · unfold registerLanguage
    cases hf : (registerLanguages initialLanguagesRegistry descs).languages.find?
        (fun kv => kv.1 = lang.id) with
    | none =>
      unfold findLanguage at hlang
      rw [hf] at hlang
      exact Option.noConfusion hlang
    | some kv0 =>
      have hrl : kv0.2 = rl := by
        unfold findLanguage at hlang
        rw [hf] at hlang
        exact Option.some.inj hlang
      refine ⟨mergeLanguage kv0.2 lang, ?_, by rw [mergeLanguage_identifier, hrl]⟩
      unfold findLanguage
      rw [find?_update_keys, hf]
      rfl
  · obtain ⟨kv1, hfind, hkv1⟩ : ∃ kv1,
        (registerLanguages initialLanguagesRegistry descs).languages.find?
          (fun kv => kv.1 = s) = some kv1 ∧ kv1.2 = rl' := by
      unfold findLanguage at hs
      cases hf : (registerLanguages initialLanguagesRegistry descs).languages.find?
          (fun kv => kv.1 = s) with
      | none =>
        rw [hf] at hs
        exact Option.noConfusion hs
      | some kv1 =>
        rw [hf] at hs
        exact ⟨kv1, rfl, Option.some.inj hs⟩
    have hkey : kv1.1 = s := by
      have := List.find?_some hfind
      simpa using this
    have hmem := List.mem_of_find?_eq_some hfind
    have hidmem : rl'.identifier.id ∈
        List.range' 1 (registerLanguages initialLanguagesRegistry descs).languages.length := by
      rw [← hids]
      exact List.mem_map.mpr ⟨kv1, hmem, by rw [hkv1]⟩
    have hid1 : 1 ≤ rl'.identifier.id := (List.mem_range'_1.mp hidmem).1
    unfold getLanguageIdentifierOfId
    rw [if_neg (by omega)]
    have htfind : (registerLanguages initialLanguagesRegistry descs).languageIds.find?
        (fun kv => kv.1 = rl'.identifier.id) = some (rl'.identifier.id, s) := by
      rw [htable]
      apply find?_of_nodup_keys
      · rw [List.map_map]
        have : ((registerLanguages initialLanguagesRegistry descs).languages.map
            ((fun kv => kv.1) ∘ (fun kv => (kv.2.identifier.id, kv.1)))) =
            ((registerLanguages initialLanguagesRegistry descs).languages.map
              (fun kv => kv.2.identifier.id)) := rfl
        rw [this, hids]
        exact List.nodup_range' 1 _
      · exact List.mem_map.mpr ⟨kv1, hmem, by rw [hkv1, hkey]⟩
    rw [htfind]
    show (if s = "" then none
      else match findLanguage (registerLanguages initialLanguagesRegistry descs) s with
        | none => none
        | some rl => some rl.identifier) = some rl'.identifier
    rw [if_neg hse, hs]

/-- Witness for the amended C8: a single registration of the language
`"ts"`, then re-registration of the same id and the round-trip for it. -/
theorem LanguagesRegistry_id_consistency_witness :
    ((registerLanguages initialLanguagesRegistry
        [⟨"ts", none, none, none, none, none, none, none⟩]).languages.map
        (fun kv => kv.2.identifier.id)) =
      List.range' 1 (registerLanguages initialLanguagesRegistry
        [⟨"ts", none, none, none, none, none, none, none⟩]).languages.length ∧
    ((registerLanguages initialLanguagesRegistry
        [⟨"ts", none, none, none, none, none, none, none⟩]).languages.map
        (fun kv => kv.2.identifier.id)).Nodup ∧
    (registerLanguage (registerLanguages initialLanguagesRegistry
        [⟨"ts", none, none, none, none, none, none, none⟩])
        ⟨"ts", none, none, none, none, none, none, none⟩).nextLanguageId =
      (registerLanguages initialLanguagesRegistry
        [⟨"ts", none, none, none, none, none, none, none⟩]).nextLanguageId ∧
    (∃ rl2, findLanguage
        (registerLanguage (registerLanguages initialLanguagesRegistry
          [⟨"ts", none, none, none, none, none, none, none⟩])
          ⟨"ts", none, none, none, none, none, none, none⟩)
        (ILanguageExtensionPoint.id ⟨"ts", none, none, none, none, none, none, none⟩) =
          some rl2 ∧
      rl2.identifier = IResolvedLanguage.identifier
        ⟨⟨"ts", 1⟩, some "ts", ["text/x-ts"], ["ts"], [], [], []⟩) ∧
    getLanguageIdentifierOfId (registerLanguages initialLanguagesRegistry
        [⟨"ts", none, none, none, none, none, none, none⟩])
      (LanguageIdentifier.id ⟨"ts", 1⟩) =
        some (IResolvedLanguage.identifier
          ⟨⟨"ts", 1⟩, some "ts", ["text/x-ts"], ["ts"], [], [], []⟩) :=
  LanguagesRegistry_id_consistency
    [⟨"ts", none, none, none, none, none, none, none⟩]
    ⟨"ts", none, none, none, none, none, none, none⟩
    ⟨⟨"ts", 1⟩, some "ts", ["text/x-ts"], ["ts"], [], [], []⟩
    ⟨⟨"ts", 1⟩, some "ts", ["text/x-ts"], ["ts"], [], [], []⟩
    "ts" rfl rfl (by decide)

lemma str_data_inj {s1 s2 : String} (h : s1.data = s2.data) : s1 = s2 := by
  obtain ⟨l1⟩ := s1
  obtain ⟨l2⟩ := s2
  exact congrArg String.mk h

lemma replaceFirst_not_mem (pat : Char) (rep : List Char) {s : List Char}
    (h : pat ∉ s) : replaceFirst pat rep s = s := by
  induction s with
  | nil => rfl
  | cons c rest ih =>
    unfold replaceFirst
    rw [if_neg (fun he : c = pat => h (by
      rw [← he]
      exact List.mem_cons_self c rest))]
    rw [ih (fun hm => h (List.mem_cons_of_mem c hm))]

lemma escapeBar_not_mem {s : String} (h : '¦' ∉ s.data) : escapeBar s = s := by
  unfold escapeBar
  rw [replaceFirst_not_mem _ _ h]

lemma strOrEmpty_safe {s : String} (h1 : s ≠ "") (h2 : '¦' ∉ s.data) :
    strOrEmpty (some s) = s := by
  show (if s = "" then "" else escapeBar s) = s
  rw [if_neg h1]
  exact escapeBar_not_mem h2

lemma bar_not_mem_decimalDigits : ∀ n : Nat, '¦' ∉ decimalDigits n := by
  intro n
  induction n using Nat.strong_induction_on with
  | _ n ih =>
    intro hm
    by_cases h : n = 0
    · rw [decimalDigits, dif_pos h] at hm
      exact List.not_mem_nil _ hm
    · rw [decimalDigits, dif_neg h] at hm
      rcases List.mem_append.mp hm with hm | hm
      · exact ih (n / 10) (Nat.div_lt_self (Nat.pos_of_ne_zero h) (by decide)) hm
      · rcases List.mem_singleton.mp hm with he
        have hd : n % 10 < 10 := Nat.mod_lt n (by decide)
        have : ∀ d < 10, Nat.digitChar d ≠ '¦' := by decide
        exact this (n % 10) hd he.symm

lemma bar_not_mem_jsNatToString (n : Nat) : '¦' ∉ (jsNatToString n).data := by
  unfold jsNatToString
  by_cases h : n = 0
  · rw [if_pos h]
    decide
  · rw [if_neg h]
    exact bar_not_mem_decimalDigits n

lemma decimalDigits_zero : decimalDigits 0 = [] := by
  rw [decimalDigits]
  simp

lemma decimalDigits_succ {n : Nat} (h : n ≠ 0) :
    decimalDigits n = decimalDigits (n / 10) ++ [Nat.digitChar (n % 10)] := by
  rw [decimalDigits, dif_neg h]

lemma decimalDigits_eq_nil_iff {n : Nat} : decimalDigits n = [] ↔ n = 0 := by
  constructor
  · intro h
    by_contra hn
    rw [decimalDigits_succ hn] at h
    exact absurd h (by simp)
  · intro h
    rw [h, decimalDigits_zero]

lemma append_singleton_inj {α : Type} {l1 l2 : List α} {a b : α}
    (h : l1 ++ [a] = l2 ++ [b]) : l1 = l2 ∧ a = b := by
  have h1 := congrArg List.reverse h
  simp only [List.reverse_append, List.reverse_singleton, List.singleton_append,
    List.cons.injEq] at h1
  exact ⟨by
    have := congrArg List.reverse h1.2
    simpa using this, h1.1⟩

lemma decimalDigits_inj : ∀ {m n : Nat}, decimalDigits m = decimalDigits n → m = n := by
  intro m
  induction m using Nat.strong_induction_on with
  | _ m ih =>
    intro n h
    by_cases hm : m = 0
    · by_cases hn : n = 0
      · rw [hm, hn]
      · rw [hm, decimalDigits_zero, decimalDigits_succ hn] at h
        exact absurd h.symm (by simp)
    · by_cases hn : n = 0
      · rw [hn, decimalDigits_zero, decimalDigits_succ hm] at h
        exact absurd h (by simp)
      · rw [decimalDigits_succ hm, decimalDigits_succ hn] at h
        rcases append_singleton_inj h with ⟨hq, hr⟩
        have hdiv : m / 10 = n / 10 :=
          ih (m / 10) (Nat.div_lt_self (Nat.pos_of_ne_zero hm) (by decide)) hq
        have hdig : ∀ a < 10, ∀ b < 10, Nat.digitChar a = Nat.digitChar b → a = b := by
          decide
        have hmod : m % 10 = n % 10 :=
          hdig (m % 10) (Nat.mod_lt m (by decide)) (n % 10) (Nat.mod_lt n (by decide)) hr
        omega

lemma jsNatToString_inj : ∀ {m n : Nat}, jsNatToString m = jsNatToString n → m = n := by
  have hdig : ∀ a < 10, ∀ b < 10, Nat.digitChar a = Nat.digitChar b → a = b := by decide
  have hzero : ∀ k : Nat, k ≠ 0 → ¬("0" = (⟨decimalDigits k⟩ : String)) := by
    intro k hk h
    have hd : ('0' :: [] : List Char) = decimalDigits k := congrArg String.data h
    rw [decimalDigits_succ hk] at hd
    rcases @append_singleton_inj Char [] (decimalDigits (k / 10)) '0'
        (Nat.digitChar (k % 10)) hd with ⟨hq, hr⟩
    have h10 : k / 10 = 0 := decimalDigits_eq_nil_iff.mp hq.symm
    have hmod : k % 10 = 0 :=
      (hdig 0 (by decide) (k % 10) (Nat.mod_lt k (by decide)) (by rw [← hr]; rfl)).symm
    omega
  intro m n h
  unfold jsNatToString at h
  by_cases hm : m = 0
  · by_cases hn : n = 0
    · rw [hm, hn]
    · rw [if_pos hm, if_neg hn] at h
      exact absurd h (hzero n hn)
  · by_cases hn : n = 0
    · rw [if_neg hm, if_pos hn] at h
      exact absurd h.symm (hzero m hm)
    · rw [if_neg hm, if_neg hn] at h
      exact decimalDigits_inj (congrArg String.data h)

lemma sevToString_inj : ∀ v1 v2 : MarkerSeverity, v1 ≠ MarkerSeverity.Hint →
    v2 ≠ MarkerSeverity.Hint →
    MarkerSeverity.toString v1 = MarkerSeverity.toString v2 → v1 = v2 := by
  intro v1 v2 h1 h2 h
  cases v1 <;> cases v2 <;>
    first
      | rfl
      | exact absurd rfl h1
      | exact absurd rfl h2
      | exact absurd h (by decide)

lemma append_cons_sep_inj {c : Char} : ∀ {x y s1 s2 : List Char}, c ∉ x → c ∉ y →
    x ++ c :: s1 = y ++ c :: s2 → x = y ∧ s1 = s2 := by
  intro x
  induction x with
  | nil =>
    intro y s1 s2 hx hy h
    cases y with
    | nil =>
      refine ⟨rfl, ?_⟩
      simpa using h
    | cons b y' =>
      simp only [List.nil_append, List.cons_append, List.cons.injEq] at h
      exact absurd (by rw [h.1]; exact List.mem_cons_self b y') hy
  | cons a x' ih =>
    intro y s1 s2 hx hy h
    cases y with
    | nil =>
      simp only [List.cons_append, List.nil_append, List.cons.injEq] at h
      exact absurd (by rw [← h.1]; exact List.mem_cons_self a x') hx
    | cons b y' =>
      simp only [List.cons_append, List.cons.injEq] at h
      have hx' : c ∉ x' := fun hm => hx (List.mem_cons_of_mem a hm)
      have hy' : c ∉ y' := fun hm => hy (List.mem_cons_of_mem b hm)
      rcases ih hx' hy' h.2 with ⟨h1', h2'⟩
      exact ⟨by rw [h.1, h1'], h2'⟩

lemma joinSep_inj {c : Char} : ∀ {xs ys : List (List Char)},
    (∀ x ∈ xs, c ∉ x) → (∀ y ∈ ys, c ∉ y) → xs.length = ys.length →
    joinSep c xs = joinSep c ys → xs = ys := by
  intro xs
  induction xs with
  | nil =>
    intro ys _ _ hlen _
    cases ys with
    | nil => rfl
    | cons y ys' => simp at hlen
  | cons x xs' ih =>
    intro ys hx hy hlen h
    cases ys with
    | nil => simp at hlen
    | cons y ys' =>
      cases xs' with
      | nil =>
        cases ys' with
        | nil =>
          have hxy : x = y := h
          rw [hxy]
        | cons y2 ys'' => simp at hlen
      | cons x2 xs'' =>
        cases ys' with
        | nil => simp at hlen
        | cons y2 ys'' =>
          have hj : x ++ c :: joinSep c (x2 :: xs'') = y ++ c :: joinSep c (y2 :: ys'') := h
          rcases append_cons_sep_inj (hx x (List.mem_cons_self x _))
            (hy y (List.mem_cons_self y _)) hj with ⟨h1, h2⟩
          have hxs : ∀ z ∈ x2 :: xs'', c ∉ z := fun z hz => hx z (List.mem_cons_of_mem x hz)
          have hys : ∀ z ∈ y2 :: ys'', c ∉ z := fun z hz => hy z (List.mem_cons_of_mem y hz)
          have hlen' : (x2 :: xs'').length = (y2 :: ys'').length := by simpa using hlen
          rw [h1, ih hxs hys hlen' h2]

/-- C9 (marker key canonicalization is injective on safe inputs): for two
markers whose source, code, and message are present, non-empty and free
of `'¦'`, whose severity is Error, Warning or Info, and whose four
position numbers are defined, `IMarkerData.makeKey` yields equal strings
iff the two markers agree on source, code, severity, message and the four
positions. -/
theorem IMarkerData_makeKey_inj (a b : IMarkerData)
    (ha : safeMarkerB a = true) (hb : safeMarkerB b = true) :
    IMarkerData.makeKey a = IMarkerData.makeKey b ↔
      (a.source = b.source ∧ a.code = b.code ∧ a.severity = b.severity ∧
       a.message = b.message ∧ a.startLineNumber = b.startLineNumber ∧
       a.startColumn = b.startColumn ∧ a.endLineNumber = b.endLineNumber ∧
       a.endColumn = b.endColumn) := by
  obtain ⟨ca, va, ma, sa, pa1, pa2, pa3, pa4⟩ := a
  obtain ⟨cb, vb, mb, sb, pb1, pb2, pb3, pb4⟩ := b
  rcases sa with _ | sa
  · simp [safeMarkerB, safeFieldB] at ha
  rcases ca with _ | ca
  · simp [safeMarkerB, safeFieldB] at ha
  rcases va with _ | va
  · simp [safeMarkerB, safeFieldB] at ha
  rcases pa1 with _ | na1
  · simp [safeMarkerB, safeFieldB] at ha
  rcases pa2 with _ | na2
  · simp [safeMarkerB, safeFieldB] at ha
  rcases pa3 with _ | na3
  · simp [safeMarkerB, safeFieldB] at ha
  rcases pa4 with _ | na4
  · simp [safeMarkerB, safeFieldB] at ha
  rcases sb with _ | sb
  · simp [safeMarkerB, safeFieldB] at hb
  rcases cb with _ | cb
  · simp [safeMarkerB, safeFieldB] at hb
  rcases vb with _ | vb
  · simp [safeMarkerB, safeFieldB] at hb
  rcases pb1 with _ | nb1
  · simp [safeMarkerB, safeFieldB] at hb
  rcases pb2 with _ | nb2
  · simp [safeMarkerB, safeFieldB] at hb
  rcases pb3 with _ | nb3
  · simp [safeMarkerB, safeFieldB] at hb
  rcases pb4 with _ | nb4
  · simp [safeMarkerB, safeFieldB] at hb
  obtain ⟨ha7, hp4a⟩ := (Bool.and_eq_true _ _ ▸ ha)
  obtain ⟨ha6, hp3a⟩ := (Bool.and_eq_true _ _ ▸ ha7)
  obtain ⟨ha5, hp2a⟩ := (Bool.and_eq_true _ _ ▸ ha6)
  obtain ⟨ha4, hp1a⟩ := (Bool.and_eq_true _ _ ▸ ha5)
  obtain ⟨ha3, hseva⟩ := (Bool.and_eq_true _ _ ▸ ha4)
  obtain ⟨ha2, hmsga⟩ := (Bool.and_eq_true _ _ ▸ ha3)
  obtain ⟨hsrca, hcodea⟩ := (Bool.and_eq_true _ _ ▸ ha2)
  obtain ⟨hb7, hp4b⟩ := (Bool.and_eq_true _ _ ▸ hb)
  obtain ⟨hb6, hp3b⟩ := (Bool.and_eq_true _ _ ▸ hb7)
  obtain ⟨hb5, hp2b⟩ := (Bool.and_eq_true _ _ ▸ hb6)
  obtain ⟨hb4, hp1b⟩ := (Bool.and_eq_true _ _ ▸ hb5)
  obtain ⟨hb3, hsevb⟩ := (Bool.and_eq_true _ _ ▸ hb4)
  obtain ⟨hb2, hmsgb⟩ := (Bool.and_eq_true _ _ ▸ hb3)
  obtain ⟨hsrcb, hcodeb⟩ := (Bool.and_eq_true _ _ ▸ hb2)
  have hsa1 : sa ≠ "" := by
    have htmp : _ ∧ _ := Bool.and_eq_true _ _ ▸ hsrca
    simpa using htmp.1
  have hsa2 : '¦' ∉ sa.data := by
    have htmp : _ ∧ _ := Bool.and_eq_true _ _ ▸ hsrca
    simpa using htmp.2
  have hca1 : ca ≠ "" := by
    have htmp : _ ∧ _ := Bool.and_eq_true _ _ ▸ hcodea
    simpa using htmp.1
  have hca2 : '¦' ∉ ca.data := by
    have htmp : _ ∧ _ := Bool.and_eq_true _ _ ▸ hcodea
    simpa using htmp.2
  have hma1 : ma ≠ "" := by
    have htmp : _ ∧ _ := Bool.and_eq_true _ _ ▸ hmsga
    simpa using htmp.1
  have hma2 : '¦' ∉ ma.data := by
    have htmp : _ ∧ _ := Bool.and_eq_true _ _ ▸ hmsga
    simpa using htmp.2
  have hsb1 : sb ≠ "" := by
    have htmp : _ ∧ _ := Bool.and_eq_true _ _ ▸ hsrcb
    simpa using htmp.1
  have hsb2 : '¦' ∉ sb.data := by
    have htmp : _ ∧ _ := Bool.and_eq_true _ _ ▸ hsrcb
    simpa using htmp.2
  have hcb1 : cb ≠ "" := by
    have htmp : _ ∧ _ := Bool.and_eq_true _ _ ▸ hcodeb
    simpa using htmp.1
  have hcb2 : '¦' ∉ cb.data := by
    have htmp : _ ∧ _ := Bool.and_eq_true _ _ ▸ hcodeb
    simpa using htmp.2
  have hmb1 : mb ≠ "" := by
    have htmp : _ ∧ _ := Bool.and_eq_true _ _ ▸ hmsgb
    simpa using htmp.1
  have hmb2 : '¦' ∉ mb.data := by
    have htmp : _ ∧ _ := Bool.and_eq_true _ _ ▸ hmsgb
    simpa using htmp.2
  have hva : va = MarkerSeverity.Error ∨ va = MarkerSeverity.Warning ∨
      va = MarkerSeverity.Info := by simpa [or_assoc] using hseva
  have hvb : vb = MarkerSeverity.Error ∨ vb = MarkerSeverity.Warning ∨
      vb = MarkerSeverity.Info := by simpa [or_assoc] using hsevb
  have hKa : IMarkerData.makeKey ⟨some ca, some va, ma, some sa,
        some na1, some na2, some na3, some na4⟩ =
      (⟨joinSep '¦' [[], sa.data, ca.data, (MarkerSeverity.toString va).data, ma.data,
        (jsNatToString na1).data, (jsNatToString na2).data, (jsNatToString na3).data,
        (jsNatToString na4).data, []]⟩ : String) := by
    show (⟨joinSep '¦' ["".data, (strOrEmpty (some sa)).data, (strOrEmpty (some ca)).data,
      (sevOrEmpty (some va)).data, (if ma = "" then "" else escapeBar ma).data,
      (numOrEmpty (some na1)).data, (numOrEmpty (some na2)).data,
      (numOrEmpty (some na3)).data, (numOrEmpty (some na4)).data, "".data]⟩ : String) = _
    rw [strOrEmpty_safe hsa1 hsa2, strOrEmpty_safe hca1 hca2, if_neg hma1,
      escapeBar_not_mem hma2]
    rfl
  have hKb : IMarkerData.makeKey ⟨some cb, some vb, mb, some sb,
        some nb1, some nb2, some nb3, some nb4⟩ =
      (⟨joinSep '¦' [[], sb.data, cb.data, (MarkerSeverity.toString vb).data, mb.data,
        (jsNatToString nb1).data, (jsNatToString nb2).data, (jsNatToString nb3).data,
        (jsNatToString nb4).data, []]⟩ : String) := by
    show (⟨joinSep '¦' ["".data, (strOrEmpty (some sb)).data, (strOrEmpty (some cb)).data,
      (sevOrEmpty (some vb)).data, (if mb = "" then "" else escapeBar mb).data,
      (numOrEmpty (some nb1)).data, (numOrEmpty (some nb2)).data,
      (numOrEmpty (some nb3)).data, (numOrEmpty (some nb4)).data, "".data]⟩ : String) = _
    rw [strOrEmpty_safe hsb1 hsb2, strOrEmpty_safe hcb1 hcb2, if_neg hmb1,
      escapeBar_not_mem hmb2]
    rfl
  constructor
  · intro h
    rw [hKa, hKb] at h
    have hdata : joinSep '¦' [[], sa.data, ca.data, (MarkerSeverity.toString va).data,
        ma.data, (jsNatToString na1).data, (jsNatToString na2).data,
        (jsNatToString na3).data, (jsNatToString na4).data, []] =
      joinSep '¦' [[], sb.data, cb.data, (MarkerSeverity.toString vb).data,
        mb.data, (jsNatToString nb1).data, (jsNatToString nb2).data,
        (jsNatToString nb3).data, (jsNatToString nb4).data, []] :=
      congrArg String.data h
    have hmema : ∀ x ∈ [([] : List Char), sa.data, ca.data,
        (MarkerSeverity.toString va).data, ma.data, (jsNatToString na1).data,
        (jsNatToString na2).data, (jsNatToString na3).data, (jsNatToString na4).data,
        []], '¦' ∉ x := by
      intro x hx
      simp only [List.mem_cons, List.not_mem_nil, or_false] at hx
      rcases hx with rfl | rfl | rfl | rfl | rfl | rfl | rfl | rfl | rfl | rfl
      · exact List.not_mem_nil _
      · exact hsa2
      · exact hca2
      · rcases hva with rfl | rfl | rfl <;> decide
      · exact hma2
      · exact bar_not_mem_jsNatToString na1
      · exact bar_not_mem_jsNatToString na2
      · exact bar_not_mem_jsNatToString na3
      · exact bar_not_mem_jsNatToString na4
      · exact List.not_mem_nil _
    have hmemb : ∀ x ∈ [([] : List Char), sb.data, cb.data,
        (MarkerSeverity.toString vb).data, mb.data, (jsNatToString nb1).data,
        (jsNatToString nb2).data, (jsNatToString nb3).data, (jsNatToString nb4).data,
        []], '¦' ∉ x := by
      intro x hx
      simp only [List.mem_cons, List.not_mem_nil, or_false] at hx
      rcases hx with rfl | rfl | rfl | rfl | rfl | rfl | rfl | rfl | rfl | rfl
      · exact List.not_mem_nil _
      · exact hsb2
      · exact hcb2
      · rcases hvb with rfl | rfl | rfl <;> decide
      · exact hmb2
      · exact bar_not_mem_jsNatToString nb1
      · exact bar_not_mem_jsNatToString nb2
      · exact bar_not_mem_jsNatToString nb3
      · exact bar_not_mem_jsNatToString nb4
      · exact List.not_mem_nil _
    have hlists := joinSep_inj hmema hmemb rfl hdata
    simp only [List.cons.injEq, and_true, true_and] at hlists
    obtain ⟨hS, hC, hV, hM, h1, h2, h3, h4⟩ := hlists
    have hvane : va ≠ MarkerSeverity.Hint := by
      rcases hva with rfl | rfl | rfl <;> decide
    have hvbne : vb ≠ MarkerSeverity.Hint := by
      rcases hvb with rfl | rfl | rfl <;> decide
    exact ⟨congrArg some (str_data_inj hS), congrArg some (str_data_inj hC),
      congrArg some (sevToString_inj va vb hvane hvbne (str_data_inj hV)),
      str_data_inj hM,
      congrArg some (jsNatToString_inj (str_data_inj h1)),
      congrArg some (jsNatToString_inj (str_data_inj h2)),
      congrArg some (jsNatToString_inj (str_data_inj h3)),
      congrArg some (jsNatToString_inj (str_data_inj h4))⟩
  · rintro ⟨h1, h2, h3, h4, h5, h6, h7, h8⟩
    have e1 : sa = sb := Option.some.inj h1
    have e2 : ca = cb := Option.some.inj h2
    have e3 : va = vb := Option.some.inj h3
    have e4 : ma = mb := h4
    have e5 : na1 = nb1 := Option.some.inj h5
    have e6 : na2 = nb2 := Option.some.inj h6
    have e7 : na3 = nb3 := Option.some.inj h7
    have e8 : na4 = nb4 := Option.some.inj h8
    subst e1
    subst e2
    subst e3
    subst e4
    subst e5
    subst e6
    subst e7
    subst e8
    rfl

/-- Witness for C9: two safe markers that differ only in message — equal
keys iff all compared fields agree. -/
theorem IMarkerData_makeKey_inj_witness :
    IMarkerData.makeKey ⟨some "C1", some MarkerSeverity.Error, "boom", some "src",
        some 1, some 2, some 3, some 4⟩ =
      IMarkerData.makeKey ⟨some "C1", some MarkerSeverity.Error, "boom2", some "src",
        some 1, some 2, some 3, some 4⟩ ↔
      ((some "src" : Option String) = some "src" ∧
       (some "C1" : Option String) = some "C1" ∧
       (some MarkerSeverity.Error : Option MarkerSeverity) = some MarkerSeverity.Error ∧
       ("boom" : String) = "boom2" ∧
       (some 1 : Option Nat) = some 1 ∧ (some 2 : Option Nat) = some 2 ∧
       (some 3 : Option Nat) = some 3 ∧ (some 4 : Option Nat) = some 4) :=
  IMarkerData_makeKey_inj
    ⟨some "C1", some MarkerSeverity.Error, "boom", some "src", some 1, some 2, some 3, some 4⟩
    ⟨some "C1", some MarkerSeverity.Error, "boom2", some "src", some 1, some 2, some 3, some 4⟩
    (by decide) (by decide)
